import Mathlib

/-!
Shallow embedding of the core of `raeq/wordle_solver` (files `src/solve.py`,
`src/wordle.py`) and verification of the specification's claims about it.

Modelling conventions:
* Python strings are modelled as `List Char`, restricted to ASCII.
* Python `str.lower()` is modelled by `pyLower` on ASCII letters.
* Python dicts of counts (`word_letter_counts`) are modelled as total
  functions `Char → Int` (`dict.get(k, 0)` is lookup, mutation is pointwise
  update); the integers may in principle go negative, exactly like the
  Python counters.
* Python `set` values are modelled as `Finset`; where an operation's result
  depends on the set's iteration order (`get_best_recommendations`) the
  input is modelled as the iteration sequence, a `List`.
* Python floats are modelled as exact rationals `ℚ`.
* Out-of-range indexing `word[i]` (an `IndexError` in Python, unreachable in
  the code's intended use where feedback and words have equal length) is
  totalised with the default `' '`.
-/

/-- One word, as its sequence of characters. -/
abbrev Word := List Char

/-- `class Result(Enum)` of `solve.py`: the three per-letter feedback tags. -/
inductive Result where
  | NOTPRESENT
  | INCORRECT_LOCATION
  | CORRECT_LOCATION
deriving DecidableEq, Repr

/-- `class Guess(NamedTuple)` of `solve.py`: one letter with its tag. -/
structure Guess where
  letter : Char
  result : Result
deriving DecidableEq, Repr

/-- ASCII `str.lower()` on one character, written as an explicit table over
the 26 uppercase letters (all inputs appearing in this development are
ASCII). -/
def pyLower (c : Char) : Char :=
  if c = 'A' then 'a' else if c = 'B' then 'b' else if c = 'C' then 'c'
  else if c = 'D' then 'd' else if c = 'E' then 'e' else if c = 'F' then 'f'
  else if c = 'G' then 'g' else if c = 'H' then 'h' else if c = 'I' then 'i'
  else if c = 'J' then 'j' else if c = 'K' then 'k' else if c = 'L' then 'l'
  else if c = 'M' then 'm' else if c = 'N' then 'n' else if c = 'O' then 'o'
  else if c = 'P' then 'p' else if c = 'Q' then 'q' else if c = 'R' then 'r'
  else if c = 'S' then 's' else if c = 'T' then 't' else if c = 'U' then 'u'
  else if c = 'V' then 'v' else if c = 'W' then 'w' else if c = 'X' then 'x'
  else if c = 'Y' then 'y' else if c = 'Z' then 'z' else c

/-- The initial `word_letter_counts` dictionary of `_word_matches_guesses`:
for each letter, how often it occurs in the word. -/
def pyCounts (w : Word) : Char → Int :=
  fun c => (w.count c : Int)

/-- `word_letter_counts[c] -= 1`: decrement one letter's count. -/
def decr (counts : Char → Int) (c : Char) : Char → Int :=
  fun x => if x = c then counts x - 1 else counts x

/-- First pass of `_word_matches_guesses` (`solve.py` lines 111-118):
`for i, guess in enumerate(guesses)` handling `CORRECT_LOCATION` entries.
Returns `none` on the early `return False`, otherwise the updated counts.
(The `green_positions` dictionary of the source is write-only and omitted.) -/
def greenPass (word : Word) : List Guess → Nat → (Char → Int) → Option (Char → Int)
  | [], _, counts => some counts
  | g :: rest, i, counts =>
    if g.result = Result.CORRECT_LOCATION then
      if word.getD i ' ' ≠ g.letter then none
      else greenPass word rest (i + 1) (decr counts g.letter)
    else greenPass word rest (i + 1) counts

/-- Second pass of `_word_matches_guesses` (`solve.py` lines 120-141):
yellow (`INCORRECT_LOCATION`) and black (`NOTPRESENT`) entries. (The
`yellow_letters` / `black_letters` sets of the source are write-only and
omitted.) -/
def secondPass (word : Word) : List Guess → Nat → (Char → Int) → Bool
  | [], _, _ => true
  | g :: rest, i, counts =>
    if g.result = Result.INCORRECT_LOCATION then
      if word.getD i ' ' = g.letter then false
      else if counts g.letter ≤ 0 then false
      else secondPass word rest (i + 1) (decr counts g.letter)
    else if g.result = Result.NOTPRESENT then
      if counts g.letter > 0 then false
      else secondPass word rest (i + 1) counts
    else secondPass word rest (i + 1) counts

/-- `_word_matches_guesses(word, guesses)` of `solve.py`. -/
def word_matches_guesses (word : Word) (guesses : List Guess) : Bool :=
  let w := word.map pyLower
  match greenPass w guesses 0 (pyCounts w) with
  | none => false
  | some counts => secondPass w guesses 0 counts

/-- `get_top_recommendations(possible_words, guesses)` of `solve.py`: the
constraint filter. `if not guesses: return possible_words`, otherwise keep
the words matching all guesses. -/
def get_top_recommendations (possible_words : Finset Word) (guesses : List Guess) :
    Finset Word :=
  if guesses = [] then possible_words
  else possible_words.filter (fun w => word_matches_guesses w guesses = true)

/-- Modelled from the spec: the repository has no `evaluate` function; spec
§4.1 defines it as "for each position i, if `guess[i] == target[i]`, tag
Correct; else if `guess[i]` does not occur anywhere in `target`, tag Absent;
else tag Present", explicitly without duplicate-count disambiguation.
Auxiliary, walking the guess with its position. -/
def evalAux (target : Word) : Word → Nat → List Guess
  | [], _ => []
  | c :: rest, i =>
    (if target.getD i ' ' = c then Guess.mk c Result.CORRECT_LOCATION
     else if c ∈ target then Guess.mk c Result.INCORRECT_LOCATION
     else Guess.mk c Result.NOTPRESENT) :: evalAux target rest (i + 1)

/-- Modelled from the spec: `evaluate(guess, target)` of spec §4.1. -/
def evaluate (guess target : Word) : List Guess := evalAux target guess 0

/-- Letters of a feedback sequence, in order: the guess word it came from. -/
def guessLetters (gs : List Guess) : List Char := gs.map (fun g => g.letter)

/-- How many entries of a feedback list mark letter `c` Correct. -/
def countGreen (c : Char) : List Guess → Nat
  | [] => 0
  | g :: rest =>
    (if g.result = Result.CORRECT_LOCATION ∧ g.letter = c then 1 else 0) + countGreen c rest

/-- How many entries of a feedback list mark letter `c` Present. -/
def countYellow (c : Char) : List Guess → Nat
  | [] => 0
  | g :: rest =>
    (if g.result = Result.INCORRECT_LOCATION ∧ g.letter = c then 1 else 0) + countYellow c rest

/-- Every Correct entry agrees with the word at its position. -/
def okGreen (word : Word) : List Guess → Nat → Prop
  | [], _ => True
  | g :: rest, i =>
    (g.result = Result.CORRECT_LOCATION → word.getD i ' ' = g.letter) ∧ okGreen word rest (i + 1)

/-- Every Present entry disagrees with the word at its position. -/
def okYellow (word : Word) : List Guess → Nat → Prop
  | [], _ => True
  | g :: rest, i =>
    (g.result = Result.INCORRECT_LOCATION → word.getD i ' ' ≠ g.letter) ∧ okYellow word rest (i + 1)

/-- Every Absent entry's letter has a non-positive remaining count. -/
def okAbsent (counts : Char → Int) : List Guess → Prop
  | [] => True
  | g :: rest =>
    (g.result = Result.NOTPRESENT → counts g.letter ≤ 0) ∧ okAbsent counts rest

theorem countGreen_cons (x : Char) (g : Guess) (rest : List Guess) :
    countGreen x (g :: rest) =
      (if g.result = Result.CORRECT_LOCATION ∧ g.letter = x then 1 else 0) +
        countGreen x rest := rfl

theorem countYellow_cons (x : Char) (g : Guess) (rest : List Guess) :
    countYellow x (g :: rest) =
      (if g.result = Result.INCORRECT_LOCATION ∧ g.letter = x then 1 else 0) +
        countYellow x rest := rfl

theorem okGreen_cons (word : Word) (g : Guess) (rest : List Guess) (i : Nat) :
    okGreen word (g :: rest) i ↔
      (g.result = Result.CORRECT_LOCATION → word.getD i ' ' = g.letter) ∧
        okGreen word rest (i + 1) := Iff.rfl

theorem okYellow_cons (word : Word) (g : Guess) (rest : List Guess) (i : Nat) :
    okYellow word (g :: rest) i ↔
      (g.result = Result.INCORRECT_LOCATION → word.getD i ' ' ≠ g.letter) ∧
        okYellow word rest (i + 1) := Iff.rfl

theorem okAbsent_cons (counts : Char → Int) (g : Guess) (rest : List Guess) :
    okAbsent counts (g :: rest) ↔
      (g.result = Result.NOTPRESENT → counts g.letter ≤ 0) ∧
        okAbsent counts rest := Iff.rfl

theorem decr_apply (counts : Char → Int) (c x : Char) :
    decr counts c x = if x = c then counts x - 1 else counts x := rfl

theorem greenPass_eq_some (word : Word) :
    ∀ (l : List Guess) (i : Nat) (counts counts2 : Char → Int),
      greenPass word l i counts = some counts2 →
      ∀ x, counts2 x = counts x - (countGreen x l : Int) := by
  intro l
  induction l with
  | nil =>
    intro i counts counts2 h x
    simp only [greenPass, Option.some.injEq] at h
    subst h
    simp [countGreen]
  | cons g rest ih =>
    intro i counts counts2 h x
    simp only [greenPass] at h
    by_cases hg : g.result = Result.CORRECT_LOCATION
    · rw [if_pos hg] at h
      rcases eq_or_ne (word.getD i ' ') g.letter with hw | hw
      · rw [if_neg (not_not_intro hw)] at h
        rw [ih (i + 1) (decr counts g.letter) counts2 h x, countGreen_cons,
          decr_apply]
        by_cases hx : x = g.letter
        · rw [if_pos hx, if_pos ⟨hg, hx.symm⟩]
          push_cast
          ring
        · rw [if_neg hx, if_neg (fun hh => hx hh.2.symm)]
          push_cast
          ring
      · rw [if_pos hw] at h
        exact absurd h (by simp)
    · rw [if_neg hg] at h
      rw [ih (i + 1) counts counts2 h x, countGreen_cons,
        if_neg (fun hh => hg hh.1)]
      push_cast
      ring

theorem greenPass_isSome_of_okGreen (word : Word) :
    ∀ (l : List Guess) (i : Nat) (counts : Char → Int),
      okGreen word l i → (greenPass word l i counts).isSome = true := by
  intro l
  induction l with
  | nil => intro i counts _; simp [greenPass]
  | cons g rest ih =>
    intro i counts hok
    obtain ⟨h1, h2⟩ := (okGreen_cons word g rest i).mp hok
    simp only [greenPass]
    by_cases hg : g.result = Result.CORRECT_LOCATION
    · rw [if_pos hg, if_neg (not_not_intro (h1 hg))]
      exact ih (i + 1) _ h2
    · rw [if_neg hg]
      exact ih (i + 1) _ h2

theorem okAbsent_mono {counts counts2 : Char → Int}
    (hle : ∀ x, counts2 x ≤ counts x) :
    ∀ l : List Guess, okAbsent counts l → okAbsent counts2 l := by
  intro l
  induction l with
  | nil => intro _; trivial
  | cons g rest ih =>
    intro h
    obtain ⟨h1, h2⟩ := (okAbsent_cons counts g rest).mp h
    exact (okAbsent_cons counts2 g rest).mpr
      ⟨fun hg => le_trans (hle g.letter) (h1 hg), ih h2⟩

theorem decr_le (counts : Char → Int) (c : Char) :
    ∀ x, decr counts c x ≤ counts x := by
  intro x
  rw [decr_apply]
  by_cases hx : x = c
  · rw [if_pos hx]; omega
  · rw [if_neg hx]

theorem secondPass_of_invariants (word : Word) :
    ∀ (l : List Guess) (i : Nat) (counts : Char → Int),
      okYellow word l i →
      (∀ x, (countYellow x l : Int) ≤ counts x) →
      okAbsent counts l →
      secondPass word l i counts = true := by
  intro l
  induction l with
  | nil => intro i counts _ _ _; rfl
  | cons g rest ih =>
    intro i counts hyel hbound habs
    obtain ⟨hy1, hy2⟩ := (okYellow_cons word g rest i).mp hyel
    obtain ⟨ha1, ha2⟩ := (okAbsent_cons counts g rest).mp habs
    simp only [secondPass]
    by_cases hy : g.result = Result.INCORRECT_LOCATION
    · rw [if_pos hy, if_neg (hy1 hy)]
      have hself : (countYellow g.letter (g :: rest) : Int) ≤ counts g.letter :=
        hbound g.letter
      rw [countYellow_cons, if_pos ⟨hy, rfl⟩] at hself
      have hyrest : (0 : Int) ≤ (countYellow g.letter rest : Int) := Int.ofNat_nonneg _
      push_cast at hself
      rw [if_neg (by omega)]
      apply ih (i + 1) (decr counts g.letter) hy2 _ (okAbsent_mono (decr_le counts g.letter) rest ha2)
      intro x
      have hx0 : (countYellow x (g :: rest) : Int) ≤ counts x := hbound x
      rw [countYellow_cons] at hx0
      rw [decr_apply]
      by_cases hx : x = g.letter
      · rw [if_pos ⟨hy, hx.symm⟩] at hx0
        rw [if_pos hx]
        push_cast at hx0
        omega
      · rw [if_neg (fun hh => hx hh.2.symm)] at hx0
        rw [if_neg hx]
        push_cast at hx0
        omega
    · rw [if_neg hy]
      have hbrest : ∀ x, (countYellow x rest : Int) ≤ counts x := by
        intro x
        have hx0 : (countYellow x (g :: rest) : Int) ≤ counts x := hbound x
        rw [countYellow_cons, if_neg (fun hh => hy hh.1)] at hx0
        push_cast at hx0
        omega
      by_cases hb : g.result = Result.NOTPRESENT
      · rw [if_pos hb, if_neg (by have := ha1 hb; omega)]
        exact ih (i + 1) counts hy2 hbrest ha2
      · rw [if_neg hb]
        exact ih (i + 1) counts hy2 hbrest ha2

theorem evalAux_cons (target : Word) (c : Char) (rest : Word) (i : Nat) :
    evalAux target (c :: rest) i =
      (if target.getD i ' ' = c then Guess.mk c Result.CORRECT_LOCATION
       else if c ∈ target then Guess.mk c Result.INCORRECT_LOCATION
       else Guess.mk c Result.NOTPRESENT) :: evalAux target rest (i + 1) := rfl

theorem length_evalAux (target : Word) :
    ∀ (gs : Word) (i : Nat), (evalAux target gs i).length = gs.length := by
  intro gs
  induction gs with
  | nil => intro i; rfl
  | cons c rest ih =>
    intro i
    rw [evalAux_cons, List.length_cons, List.length_cons, ih (i + 1)]

theorem okGreen_evalAux (target : Word) :
    ∀ (gs : Word) (i : Nat), okGreen target (evalAux target gs i) i := by
  intro gs
  induction gs with
  | nil => intro i; trivial
  | cons c rest ih =>
    intro i
    rw [evalAux_cons]
    by_cases hT : target.getD i ' ' = c
    · rw [if_pos hT]
      exact (okGreen_cons _ _ _ _).mpr ⟨fun _ => hT, ih (i + 1)⟩
    · rw [if_neg hT]
      by_cases hm : c ∈ target
      · rw [if_pos hm]
        exact (okGreen_cons _ _ _ _).mpr ⟨fun h => absurd h (by simp), ih (i + 1)⟩
      · rw [if_neg hm]
        exact (okGreen_cons _ _ _ _).mpr ⟨fun h => absurd h (by simp), ih (i + 1)⟩

theorem okYellow_evalAux (target : Word) :
    ∀ (gs : Word) (i : Nat), okYellow target (evalAux target gs i) i := by
  intro gs
  induction gs with
  | nil => intro i; trivial
  | cons c rest ih =>
    intro i
    rw [evalAux_cons]
    by_cases hT : target.getD i ' ' = c
    · rw [if_pos hT]
      exact (okYellow_cons _ _ _ _).mpr ⟨fun h => absurd h (by simp), ih (i + 1)⟩
    · rw [if_neg hT]
      by_cases hm : c ∈ target
      · rw [if_pos hm]
        exact (okYellow_cons _ _ _ _).mpr ⟨fun _ => hT, ih (i + 1)⟩
      · rw [if_neg hm]
        exact (okYellow_cons _ _ _ _).mpr ⟨fun h => absurd h (by simp), ih (i + 1)⟩

theorem countYellow_correct_head (x c : Char) (l : List Guess) :
    countYellow x (Guess.mk c Result.CORRECT_LOCATION :: l) = countYellow x l := by
  rw [countYellow_cons]
  simp

theorem countGreen_correct_head (x c : Char) (l : List Guess) :
    countGreen x (Guess.mk c Result.CORRECT_LOCATION :: l) =
      (if c = x then 1 else 0) + countGreen x l := by
  rw [countGreen_cons]
  simp

theorem countYellow_yellow_head (x c : Char) (l : List Guess) :
    countYellow x (Guess.mk c Result.INCORRECT_LOCATION :: l) =
      (if c = x then 1 else 0) + countYellow x l := by
  rw [countYellow_cons]
  simp

theorem countGreen_yellow_head (x c : Char) (l : List Guess) :
    countGreen x (Guess.mk c Result.INCORRECT_LOCATION :: l) = countGreen x l := by
  rw [countGreen_cons]
  simp

theorem countYellow_black_head (x c : Char) (l : List Guess) :
    countYellow x (Guess.mk c Result.NOTPRESENT :: l) = countYellow x l := by
  rw [countYellow_cons]
  simp

theorem countGreen_black_head (x c : Char) (l : List Guess) :
    countGreen x (Guess.mk c Result.NOTPRESENT :: l) = countGreen x l := by
  rw [countGreen_cons]
  simp

theorem counts_evalAux_le (target : Word) :
    ∀ (gs : Word) (i : Nat) (x : Char),
      countYellow x (evalAux target gs i) + countGreen x (evalAux target gs i) ≤
        gs.count x := by
  intro gs
  induction gs with
  | nil => intro i x; simp [evalAux, countYellow, countGreen]
  | cons c rest ih =>
    intro i x
    have hrest := ih (i + 1) x
    rw [evalAux_cons]
    by_cases hT : target.getD i ' ' = c
    · rw [if_pos hT, countYellow_correct_head, countGreen_correct_head,
        List.count_cons]
      by_cases hx : c = x
      · simp only [hx, if_pos rfl, beq_self_eq_true, if_true]
        omega
      · rw [if_neg hx,
          if_neg (by simp only [beq_iff_eq]; exact hx)]
        omega
    · rw [if_neg hT]
      by_cases hm : c ∈ target
      · rw [if_pos hm, countYellow_yellow_head, countGreen_yellow_head,
          List.count_cons]
        by_cases hx : c = x
        · simp only [hx, if_pos rfl, beq_self_eq_true, if_true]
          omega
        · rw [if_neg hx,
            if_neg (by simp only [beq_iff_eq]; exact hx)]
          omega
      · rw [if_neg hm, countYellow_black_head, countGreen_black_head,
          List.count_cons]
        by_cases hx : c = x
        · simp only [hx, beq_self_eq_true, if_true]
          omega
        · rw [if_neg (by simp only [beq_iff_eq]; exact hx)]
          omega

theorem counts_evalAux_of_not_mem (target : Word) :
    ∀ (gs : Word) (i : Nat) (x : Char),
      i + gs.length ≤ target.length → x ∉ target →
      countGreen x (evalAux target gs i) = 0 ∧ countYellow x (evalAux target gs i) = 0 := by
  intro gs
  induction gs with
  | nil => intro i x _ _; exact ⟨rfl, rfl⟩
  | cons c rest ih =>
    intro i x hlen hx
    have hi : i < target.length := by
      rw [List.length_cons] at hlen
      omega
    have hrest := ih (i + 1) x (by rw [List.length_cons] at hlen; omega) hx
    rw [evalAux_cons]
    by_cases hT : target.getD i ' ' = c
    · have hc : c ∈ target := by
        rw [List.getD_eq_getElem target ' ' hi] at hT
        rw [← hT]
        exact List.getElem_mem hi
      have hcx : ¬ c = x := fun h => hx (h ▸ hc)
      rw [if_pos hT, countGreen_correct_head, countYellow_correct_head,
        if_neg hcx]
      omega
    · rw [if_neg hT]
      by_cases hm : c ∈ target
      · have hcx : ¬ c = x := fun h => hx (h ▸ hm)
        rw [if_pos hm, countGreen_yellow_head, countYellow_yellow_head,
          if_neg hcx]
        omega
      · rw [if_neg hm, countGreen_black_head, countYellow_black_head]
        omega

theorem absent_evalAux_not_mem (target : Word) :
    ∀ (gs : Word) (i : Nat) (g : Guess),
      g ∈ evalAux target gs i → g.result = Result.NOTPRESENT → g.letter ∉ target := by
  intro gs
  induction gs with
  | nil => intro i g hg _; exact absurd hg (List.not_mem_nil g)
  | cons c rest ih =>
    intro i g hg hres
    rw [evalAux_cons] at hg
    rcases List.mem_cons.mp hg with hhead | htail
    · by_cases hT : target.getD i ' ' = c
      · rw [if_pos hT] at hhead
        rw [hhead] at hres
        exact absurd hres (by simp)
      · rw [if_neg hT] at hhead
        by_cases hm : c ∈ target
        · rw [if_pos hm] at hhead
          rw [hhead] at hres
          exact absurd hres (by simp)
        · rw [if_neg hm] at hhead
          rw [hhead]
          exact hm
    · exact ih (i + 1) g htail hres

theorem okAbsent_of_mem (counts : Char → Int) :
    ∀ l : List Guess,
      (∀ g ∈ l, g.result = Result.NOTPRESENT → counts g.letter ≤ 0) →
      okAbsent counts l := by
  intro l
  induction l with
  | nil => intro _; trivial
  | cons g rest ih =>
    intro h
    exact (okAbsent_cons _ _ _).mpr
      ⟨h g (List.mem_cons_self g rest),
       ih (fun a ha hb => h a (List.mem_cons_of_mem g ha) hb)⟩

theorem word_matches_guesses_eq (word : Word) (gs : List Guess) :
    word_matches_guesses word gs =
      match greenPass (word.map pyLower) gs 0 (pyCounts (word.map pyLower)) with
      | none => false
      | some counts => secondPass (word.map pyLower) gs 0 counts := rfl

theorem word_matches_evaluate (T G : Word)
    (hlow : T.map pyLower = T) (hT : T.length = 5) (hG : G.length = 5)
    (hcnt : ∀ x, x ∈ T → G.count x ≤ T.count x) :
    word_matches_guesses T (evaluate G T) = true := by
  have hsome := greenPass_isSome_of_okGreen T (evaluate G T) 0 (pyCounts T)
    (okGreen_evalAux T G 0)
  rcases h1 : greenPass T (evaluate G T) 0 (pyCounts T) with _ | counts2
  · rw [h1] at hsome
    exact absurd hsome (by simp)
  · have hvals := greenPass_eq_some T (evaluate G T) 0 (pyCounts T) counts2 h1
    have hsp : secondPass T (evaluate G T) 0 counts2 = true := by
      apply secondPass_of_invariants T (evaluate G T) 0 counts2 (okYellow_evalAux T G 0)
      · intro x
        rw [hvals x]
        unfold evaluate
        by_cases hx : x ∈ T
        · have h3 := counts_evalAux_le T G 0 x
          have h4 := hcnt x hx
          unfold pyCounts
          omega
        · obtain ⟨hg0, hy0⟩ := counts_evalAux_of_not_mem T G 0 x (by omega) hx
          rw [hg0, hy0]
          unfold pyCounts
          push_cast
          omega
      · apply okAbsent_of_mem
        intro g hg hres
        have hnm := absent_evalAux_not_mem T G 0 g hg hres
        rw [hvals g.letter]
        have hc0 : T.count g.letter = 0 := List.count_eq_zero.mpr hnm
        unfold pyCounts
        rw [hc0]
        have hge : (0 : Int) ≤ (countGreen g.letter (evaluate G T) : Int) :=
          Int.ofNat_nonneg _
        omega
    rw [word_matches_guesses_eq, hlow, h1]
    exact hsp

/-- C1: the claim as stated is false on the code. With the spec's naive
per-position `evaluate`, the target `"abcde"` is in the candidate set, the
guess `"aaxyz"` has length 5, and yet the target is eliminated by its own
feedback: `evaluate` tags the second `a` Present, but the filter's
count-aware yellow check finds no unconsumed `a` left in the target. -/
theorem C1_counterexample :
    ['a', 'b', 'c', 'd', 'e'] ∉
      get_top_recommendations {['a', 'b', 'c', 'd', 'e']}
        (evaluate ['a', 'a', 'x', 'y', 'z'] ['a', 'b', 'c', 'd', 'e']) := by
  decide

/-- C1 (amended): for every candidate set `C`, target `T ∈ C` (a lowercase
5-letter word) and guess `G` of length 5 in which no letter occurs more
often than it occurs in `T`, the target is never eliminated by its own true
feedback: `T ∈ filter(C, evaluate(G, T))`. (The restriction on duplicated
guess letters is exactly what the counterexample forces.) -/
theorem C1_amended (C : Finset Word) (T G : Word)
    (hTC : T ∈ C) (hlow : T.map pyLower = T) (hT : T.length = 5) (hG : G.length = 5)
    (hcnt : ∀ x, x ∈ T → G.count x ≤ T.count x) :
    T ∈ get_top_recommendations C (evaluate G T) := by
  unfold get_top_recommendations
  by_cases hF : evaluate G T = []
  · rw [if_pos hF]
    exact hTC
  · rw [if_neg hF]
    exact Finset.mem_filter.mpr ⟨hTC, word_matches_evaluate T G hlow hT hG hcnt⟩

/-- Witness for C1 (amended) at `C = {"abcde"}`, `T = "abcde"`,
`G = "bacde"`. -/
theorem C1_amended_witness :
    ['a', 'b', 'c', 'd', 'e'] ∈
      get_top_recommendations {['a', 'b', 'c', 'd', 'e']}
        (evaluate ['b', 'a', 'c', 'd', 'e'] ['a', 'b', 'c', 'd', 'e']) :=
  C1_amended {['a', 'b', 'c', 'd', 'e']} ['a', 'b', 'c', 'd', 'e']
    ['b', 'a', 'c', 'd', 'e'] (by decide) (by decide) (by decide) (by decide)
    (by decide)

/-- C5: for every candidate set `C` and feedback `F`, the constraint
filter's output is a subset of `C`; the filter never adds a word. -/
theorem C5_filter_subset (C : Finset Word) (F : List Guess) :
    get_top_recommendations C F ⊆ C := by
  unfold get_top_recommendations
  by_cases hF : F = []
  · rw [if_pos hF]
  · rw [if_neg hF]
    exact Finset.filter_subset _ _

/-- C6: applying the constraint filter twice with the same feedback equals
applying it once. -/
theorem C6_filter_idempotent (C : Finset Word) (F : List Guess) :
    get_top_recommendations (get_top_recommendations C F) F =
      get_top_recommendations C F := by
  unfold get_top_recommendations
  by_cases hF : F = []
  · rw [if_pos hF, if_pos hF]
  · simp only [if_neg hF]
    rw [Finset.filter_filter]
    simp

/-- C9: membership in the filter's output depends only on the word and the
feedback: the filter distributes over union, and a word is in the output
exactly when it is in the input and satisfies the per-word predicate
`_word_matches_guesses`. -/
theorem C9_filter_pointwise (A B : Finset Word) (F : List Guess) (w : Word) :
    get_top_recommendations (A ∪ B) F =
        get_top_recommendations A F ∪ get_top_recommendations B F ∧
      (w ∈ get_top_recommendations A F ↔
        w ∈ A ∧ word_matches_guesses w F = true) := by
  unfold get_top_recommendations
  by_cases hF : F = []
  · subst hF
    rw [if_pos rfl]
    have hm : word_matches_guesses w [] = true := rfl
    simp [hm]
  · simp only [if_neg hF]
    exact ⟨Finset.filter_union _ _ _, Finset.mem_filter⟩

/-- C10: filtering with an empty feedback sequence returns the candidate set
unchanged, and filtering an empty candidate set with any feedback returns
the empty set. -/
theorem C10_empty_cases (C : Finset Word) (F : List Guess) :
    get_top_recommendations C [] = C ∧ get_top_recommendations ∅ F = ∅ := by
  constructor
  · rfl
  · unfold get_top_recommendations
    by_cases hF : F = []
    · rw [if_pos hF]
    · rw [if_neg hF]
      exact Finset.filter_empty _

/-- The all-Correct feedback for a target: every position marked
`CORRECT_LOCATION` with the target's letter. -/
def allCorrect (T : Word) : List Guess :=
  T.map (fun c => Guess.mk c Result.CORRECT_LOCATION)

theorem evalAux_self (T : Word) :
    ∀ (gs : Word) (i : Nat), (∀ j, gs.getD j ' ' = T.getD (i + j) ' ') →
      evalAux T gs i = gs.map (fun c => Guess.mk c Result.CORRECT_LOCATION) := by
  intro gs
  induction gs with
  | nil => intro i _; rfl
  | cons c rest ih =>
    intro i h
    have h0 : T.getD i ' ' = c := by
      have h1 := h 0
      simp only [List.getD_cons_zero, Nat.add_zero] at h1
      exact h1.symm
    rw [evalAux_cons, if_pos h0, List.map_cons]
    congr 1
    apply ih (i + 1)
    intro j
    have h2 := h (j + 1)
    rw [List.getD_cons_succ] at h2
    rw [h2]
    congr 1
    omega

/-- When the guess equals the target, the spec's `evaluate` yields the
all-Correct feedback. -/
theorem evaluate_self (T : Word) : evaluate T T = allCorrect T :=
  evalAux_self T T 0 (fun j => by rw [Nat.zero_add])

theorem secondPass_allCorrect (w : Word) :
    ∀ (ts : Word) (i : Nat) (counts : Char → Int),
      secondPass w (ts.map (fun c => Guess.mk c Result.CORRECT_LOCATION)) i counts =
        true := by
  intro ts
  induction ts with
  | nil => intro i counts; rfl
  | cons c rest ih =>
    intro i counts
    rw [List.map_cons]
    simp only [secondPass]
    simp only [reduceCtorEq, if_false]
    exact ih (i + 1) counts

theorem greenPass_correct_head (word : Word) (c : Char) (l : List Guess)
    (i : Nat) (counts : Char → Int) :
    greenPass word (Guess.mk c Result.CORRECT_LOCATION :: l) i counts =
      if word.getD i ' ' = c then greenPass word l (i + 1) (decr counts c)
      else none := by
  simp only [greenPass]
  by_cases hw : word.getD i ' ' = c
  · rw [if_pos True.intro, if_neg (not_not_intro hw), if_pos hw]
  · rw [if_pos True.intro, if_pos hw, if_neg hw]

theorem greenPass_allCorrect_isSome (w : Word) :
    ∀ (ts : Word) (i : Nat) (counts : Char → Int),
      (greenPass w (ts.map (fun c => Guess.mk c Result.CORRECT_LOCATION)) i
          counts).isSome = true ↔
        ∀ j, j < ts.length → w.getD (i + j) ' ' = ts.getD j ' ' := by
  intro ts
  induction ts with
  | nil => intro i counts; simp [greenPass]
  | cons c rest ih =>
    intro i counts
    rw [List.map_cons, greenPass_correct_head]
    by_cases hw : w.getD i ' ' = c
    · rw [if_pos hw, ih (i + 1) (decr counts c)]
      constructor
      · intro h j hj
        cases j with
        | zero =>
          rw [List.getD_cons_zero, Nat.add_zero]
          exact hw
        | succ j2 =>
          rw [List.getD_cons_succ,
            show i + (j2 + 1) = i + 1 + j2 from by omega]
          exact h j2 (by simp only [List.length_cons] at hj; omega)
      · intro h j hj
        have h2 := h (j + 1) (by simp only [List.length_cons]; omega)
        rw [List.getD_cons_succ] at h2
        rw [show i + 1 + j = i + (j + 1) from by omega]
        exact h2
    · rw [if_neg hw]
      simp only [Option.isSome_none, Bool.false_eq_true, false_iff]
      intro h
      have h0 := h 0 (by simp)
      rw [List.getD_cons_zero, Nat.add_zero] at h0
      exact hw h0

/-- `_word_matches_guesses` against an all-Correct feedback holds exactly
when the (lowercased) word agrees with the target at every target
position. -/
theorem word_matches_allCorrect (w T : Word) :
    word_matches_guesses w (allCorrect T) = true ↔
      ∀ j, j < T.length → (w.map pyLower).getD j ' ' = T.getD j ' ' := by
  rw [word_matches_guesses_eq]
  unfold allCorrect
  have hiff := greenPass_allCorrect_isSome (w.map pyLower) T 0
    (pyCounts (w.map pyLower))
  rcases hgp : greenPass (w.map pyLower)
      (T.map (fun c => Guess.mk c Result.CORRECT_LOCATION)) 0
      (pyCounts (w.map pyLower)) with _ | c2
  · rw [hgp] at hiff
    simp only [Option.isSome_none, Bool.false_eq_true, false_iff] at hiff
    show (false = true) ↔ _
    simp only [Bool.false_eq_true, false_iff]
    intro h
    exact hiff (fun j hj => by rw [Nat.zero_add]; exact h j hj)
  · rw [hgp] at hiff
    simp only [Option.isSome_some, true_iff] at hiff
    show secondPass (w.map pyLower)
        (T.map (fun c => Guess.mk c Result.CORRECT_LOCATION)) 0 c2 = true ↔ _
    rw [secondPass_allCorrect (w.map pyLower) T 0 c2]
    simp only [true_iff]
    intro j hj
    have h2 := hiff j hj
    rwa [Nat.zero_add] at h2

/-- C8: for every candidate set `C` containing the (lowercase, 5-letter)
target `T`, the all-Correct feedback is exactly what the spec's `evaluate`
produces when the guess equals the target, and filtering `C` with it yields
exactly `{T}`, provided `T` is the unique word of `C` matching every
position. -/
theorem C8_all_correct (C : Finset Word) (T : Word)
    (hTC : T ∈ C) (hlow : T.map pyLower = T) (hTlen : T.length = 5)
    (huniq : ∀ w ∈ C,
      (∀ j, j < 5 → (w.map pyLower).getD j ' ' = T.getD j ' ') → w = T) :
    evaluate T T = allCorrect T ∧
      get_top_recommendations C (allCorrect T) = {T} := by
  refine ⟨evaluate_self T, ?_⟩
  have hne : allCorrect T ≠ [] := by
    unfold allCorrect
    intro h
    have h2 := congrArg List.length h
    rw [List.length_map, hTlen] at h2
    exact absurd h2 (by simp)
  unfold get_top_recommendations
  rw [if_neg hne]
  ext w
  simp only [Finset.mem_filter, Finset.mem_singleton]
  constructor
  · rintro ⟨hwC, hmatch⟩
    apply huniq w hwC
    intro j hj
    exact (word_matches_allCorrect w T).mp hmatch j (by rw [hTlen]; exact hj)
  · intro hw
    rw [hw]
    refine ⟨hTC, ?_⟩
    apply (word_matches_allCorrect T T).mpr
    intro j hj
    rw [hlow]

/-- Witness for C8 at `C = {"abcde", "fghij"}`, `T = "abcde"`. -/
theorem C8_all_correct_witness :
    evaluate ['a', 'b', 'c', 'd', 'e'] ['a', 'b', 'c', 'd', 'e'] =
        allCorrect ['a', 'b', 'c', 'd', 'e'] ∧
      get_top_recommendations
          {['a', 'b', 'c', 'd', 'e'], ['f', 'g', 'h', 'i', 'j']}
          (allCorrect ['a', 'b', 'c', 'd', 'e']) =
        {['a', 'b', 'c', 'd', 'e']} :=
  C8_all_correct {['a', 'b', 'c', 'd', 'e'], ['f', 'g', 'h', 'i', 'j']}
    ['a', 'b', 'c', 'd', 'e'] (by decide) (by decide) (by decide) (by decide)

theorem secondPass_absent_bound (word : Word) (c : Char) :
    ∀ (l : List Guess) (i : Nat) (counts : Char → Int),
      secondPass word l i counts = true →
      Guess.mk c Result.NOTPRESENT ∈ l →
      counts c ≤ (countYellow c l : Int) := by
  intro l
  induction l with
  | nil => intro i counts _ hm; exact absurd hm (List.not_mem_nil _)
  | cons g rest ih =>
    intro i counts hsp hm
    simp only [secondPass] at hsp
    rcases List.mem_cons.mp hm with hhead | htail
    · rw [← hhead] at hsp
      simp only [reduceCtorEq, if_false] at hsp
      by_cases hc : counts c > 0
      · rw [if_pos hc] at hsp
        exact absurd hsp (by simp)
      · have h0 : (0 : Int) ≤ (countYellow c (g :: rest) : Int) := Int.ofNat_nonneg _
        omega
    · by_cases hy : g.result = Result.INCORRECT_LOCATION
      · rw [if_pos hy] at hsp
        by_cases h1 : word.getD i ' ' = g.letter
        · rw [if_pos h1] at hsp
          exact absurd hsp (by simp)
        · rw [if_neg h1] at hsp
          by_cases h2 : counts g.letter ≤ 0
          · rw [if_pos h2] at hsp
            exact absurd hsp (by simp)
          · rw [if_neg h2] at hsp
            have hih := ih (i + 1) (decr counts g.letter) hsp htail
            rw [countYellow_cons]
            by_cases hgc : g.letter = c
            · rw [if_pos ⟨hy, hgc⟩]
              rw [decr_apply, if_pos hgc.symm] at hih
              push_cast
              omega
            · rw [if_neg (fun hh => hgc hh.2)]
              rw [decr_apply, if_neg (fun hh => hgc hh.symm)] at hih
              push_cast
              omega
      · have hstep : secondPass word rest (i + 1) counts = true := by
          rw [if_neg hy] at hsp
          by_cases hb : g.result = Result.NOTPRESENT
          · rw [if_pos hb] at hsp
            by_cases h2 : counts g.letter > 0
            · rw [if_pos h2] at hsp
              exact absurd hsp (by simp)
            · rwa [if_neg h2] at hsp
          · rwa [if_neg hb] at hsp
        have hih := ih (i + 1) counts hstep htail
        rw [countYellow_cons, if_neg (fun hh => hy hh.1)]
        push_cast
        omega

theorem guessLetters_count_cons (c gl : Char) (r : Result) (rest : List Guess) :
    (guessLetters (Guess.mk gl r :: rest)).count c =
      (guessLetters rest).count c + (if gl = c then 1 else 0) := by
  unfold guessLetters
  rw [List.map_cons, List.count_cons]
  rcases eq_or_ne gl c with h | h
  · simp [h]
  · simp [h, Ne.symm h]

theorem counts_le_letters (c : Char) :
    ∀ F : List Guess,
      countGreen c F + countYellow c F ≤ (guessLetters F).count c := by
  intro F
  induction F with
  | nil => simp [countGreen, countYellow, guessLetters]
  | cons g rest ih =>
    obtain ⟨gl, gr⟩ := g
    rw [guessLetters_count_cons]
    rcases gr with _ | _ | _
    · rw [countGreen_black_head, countYellow_black_head]
      by_cases hgc : gl = c
      · rw [if_pos hgc]; omega
      · rw [if_neg hgc]; omega
    · rw [countGreen_yellow_head, countYellow_yellow_head]
      by_cases hgc : gl = c
      · rw [if_pos hgc]; omega
      · rw [if_neg hgc]; omega
    · rw [countGreen_correct_head, countYellow_correct_head]
      by_cases hgc : gl = c
      · rw [if_pos hgc]; omega
      · rw [if_neg hgc]; omega

theorem absent_mem_counts_lt (c : Char) :
    ∀ F : List Guess,
      Guess.mk c Result.NOTPRESENT ∈ F →
      countGreen c F + countYellow c F + 1 ≤ (guessLetters F).count c := by
  intro F
  induction F with
  | nil => intro hm; exact absurd hm (List.not_mem_nil _)
  | cons g rest ih =>
    intro hm
    rcases List.mem_cons.mp hm with hhead | htail
    · rw [← hhead, guessLetters_count_cons, countGreen_black_head,
        countYellow_black_head, if_pos rfl]
      have h2 := counts_le_letters c rest
      omega
    · have hih := ih htail
      obtain ⟨gl, gr⟩ := g
      rw [guessLetters_count_cons]
      rcases gr with _ | _ | _
      · rw [countGreen_black_head, countYellow_black_head]
        by_cases hgc : gl = c
        · rw [if_pos hgc]; omega
        · rw [if_neg hgc]; omega
      · rw [countGreen_yellow_head, countYellow_yellow_head]
        by_cases hgc : gl = c
        · rw [if_pos hgc]; omega
        · rw [if_neg hgc]; omega
      · rw [countGreen_correct_head, countYellow_correct_head]
        by_cases hgc : gl = c
        · rw [if_pos hgc]; omega
        · rw [if_neg hgc]; omega

/-- If a word passes the whole filter predicate, its (lowercased) count of
any letter marked Absent somewhere in the feedback is capped by the number
of positions at which the feedback marks that letter Correct or Present. -/
theorem matches_absent_cap (w : Word) (F : List Guess) (c : Char)
    (hmem : Guess.mk c Result.NOTPRESENT ∈ F)
    (hmatch : word_matches_guesses w F = true) :
    ((w.map pyLower).count c : Int) ≤ countGreen c F + countYellow c F := by
  rw [word_matches_guesses_eq] at hmatch
  rcases hgp : greenPass (w.map pyLower) F 0 (pyCounts (w.map pyLower)) with _ | c2
  · rw [hgp] at hmatch
    exact absurd hmatch (by simp)
  · rw [hgp] at hmatch
    have hsp : secondPass (w.map pyLower) F 0 c2 = true := hmatch
    have hvals := greenPass_eq_some (w.map pyLower) F 0 (pyCounts (w.map pyLower)) c2 hgp
    have hbound := secondPass_absent_bound (w.map pyLower) c F 0 c2 hsp hmem
    rw [hvals c] at hbound
    unfold pyCounts at hbound
    omega

/-- C2: the claim's duplicated-letter half is false on the code. Take the
feedback for guess word "aabcd" with pattern "ybbbb": `a` Present at
position 0, `a` Absent at position 1, and `b`, `c`, `d` each Absent once.
The candidate "efaag" has a letter other than `a` at position 1, contains
`a` elsewhere, and violates no other rule: `a` occurs in it away from
position 0, and it contains no `b`, `c`, `d`. The claim says it is
retained; the filter eliminates it, because the code caps the candidate's
total count of `a` instead of testing position 1. -/
theorem C2_counterexample :
    (['e', 'f', 'a', 'a', 'g'] : Word).getD 1 ' ' ≠ 'a' ∧
    'a' ∈ (['e', 'f', 'a', 'a', 'g'] : Word) ∧
    (['e', 'f', 'a', 'a', 'g'] : Word).getD 0 ' ' ≠ 'a' ∧
    'b' ∉ (['e', 'f', 'a', 'a', 'g'] : Word) ∧
    'c' ∉ (['e', 'f', 'a', 'a', 'g'] : Word) ∧
    'd' ∉ (['e', 'f', 'a', 'a', 'g'] : Word) ∧
    (guessLetters
      [Guess.mk 'a' Result.INCORRECT_LOCATION, Guess.mk 'a' Result.NOTPRESENT,
       Guess.mk 'b' Result.NOTPRESENT, Guess.mk 'c' Result.NOTPRESENT,
       Guess.mk 'd' Result.NOTPRESENT]).count 'a' = 2 ∧
    ['e', 'f', 'a', 'a', 'g'] ∉
      get_top_recommendations {['e', 'f', 'a', 'a', 'g']}
        [Guess.mk 'a' Result.INCORRECT_LOCATION, Guess.mk 'a' Result.NOTPRESENT,
         Guess.mk 'b' Result.NOTPRESENT, Guess.mk 'c' Result.NOTPRESENT,
         Guess.mk 'd' Result.NOTPRESENT] := by
  decide

/-- C2 (amended): for every candidate set and feedback with an Absent entry
for letter `c`: if `c` occurs exactly once among the guess letters, the
filter's output contains no word containing `c` anywhere; in general
(including `c` occurring more than once) the letter is capped rather than
banned: every retained candidate contains at most as many occurrences of `c`
as the number of feedback positions marking `c` Correct or Present — and a
candidate containing `c` within that cap can be retained, as the concrete
duplicated-`a` feedback in the last conjunct shows. -/
theorem C2_amended (C : Finset Word) (F : List Guess) (c : Char)
    (hmem : Guess.mk c Result.NOTPRESENT ∈ F) :
    ((guessLetters F).count c = 1 →
      ∀ w ∈ get_top_recommendations C F, c ∉ w.map pyLower) ∧
    (∀ w ∈ get_top_recommendations C F,
      ((w.map pyLower).count c : Int) ≤ countGreen c F + countYellow c F) ∧
    ['a', 'b', 'c', 'd', 'e'] ∈
      get_top_recommendations {['a', 'b', 'c', 'd', 'e']}
        [Guess.mk 'a' Result.CORRECT_LOCATION, Guess.mk 'a' Result.NOTPRESENT,
         Guess.mk 'c' Result.CORRECT_LOCATION, Guess.mk 'd' Result.CORRECT_LOCATION,
         Guess.mk 'e' Result.CORRECT_LOCATION] := by
  have hFne : F ≠ [] := by
    intro h
    rw [h] at hmem
    exact absurd hmem (List.not_mem_nil _)
  have hcap : ∀ w ∈ get_top_recommendations C F,
      ((w.map pyLower).count c : Int) ≤ countGreen c F + countYellow c F := by
    intro w hw
    unfold get_top_recommendations at hw
    rw [if_neg hFne] at hw
    exact matches_absent_cap w F c hmem (Finset.mem_filter.mp hw).2
  refine ⟨?_, hcap, by decide⟩
  intro h1 w hw
  have hc := hcap w hw
  have h2 := absent_mem_counts_lt c F hmem
  rw [h1] at h2
  have hg0 : countGreen c F = 0 := by omega
  have hy0 : countYellow c F = 0 := by omega
  rw [hg0, hy0] at hc
  have hcnt0 : (w.map pyLower).count c = 0 := by omega
  exact List.count_eq_zero.mp hcnt0

/-- Witness for C2 (amended) at `C = {"xbcde"}`, feedback for guess "abcde"
with pattern "bgggg" (`a` Absent once, `b` `c` `d` `e` Correct). -/
theorem C2_amended_witness :
    ((guessLetters
        [Guess.mk 'a' Result.NOTPRESENT, Guess.mk 'b' Result.CORRECT_LOCATION,
         Guess.mk 'c' Result.CORRECT_LOCATION, Guess.mk 'd' Result.CORRECT_LOCATION,
         Guess.mk 'e' Result.CORRECT_LOCATION]).count 'a' = 1 →
      ∀ w ∈ get_top_recommendations {['x', 'b', 'c', 'd', 'e']}
        [Guess.mk 'a' Result.NOTPRESENT, Guess.mk 'b' Result.CORRECT_LOCATION,
         Guess.mk 'c' Result.CORRECT_LOCATION, Guess.mk 'd' Result.CORRECT_LOCATION,
         Guess.mk 'e' Result.CORRECT_LOCATION], 'a' ∉ w.map pyLower) ∧
    (∀ w ∈ get_top_recommendations {['x', 'b', 'c', 'd', 'e']}
        [Guess.mk 'a' Result.NOTPRESENT, Guess.mk 'b' Result.CORRECT_LOCATION,
         Guess.mk 'c' Result.CORRECT_LOCATION, Guess.mk 'd' Result.CORRECT_LOCATION,
         Guess.mk 'e' Result.CORRECT_LOCATION],
      ((w.map pyLower).count 'a' : Int) ≤
        countGreen 'a'
            [Guess.mk 'a' Result.NOTPRESENT, Guess.mk 'b' Result.CORRECT_LOCATION,
             Guess.mk 'c' Result.CORRECT_LOCATION, Guess.mk 'd' Result.CORRECT_LOCATION,
             Guess.mk 'e' Result.CORRECT_LOCATION] +
          countYellow 'a'
            [Guess.mk 'a' Result.NOTPRESENT, Guess.mk 'b' Result.CORRECT_LOCATION,
             Guess.mk 'c' Result.CORRECT_LOCATION, Guess.mk 'd' Result.CORRECT_LOCATION,
             Guess.mk 'e' Result.CORRECT_LOCATION]) ∧
    ['a', 'b', 'c', 'd', 'e'] ∈
      get_top_recommendations {['a', 'b', 'c', 'd', 'e']}
        [Guess.mk 'a' Result.CORRECT_LOCATION, Guess.mk 'a' Result.NOTPRESENT,
         Guess.mk 'c' Result.CORRECT_LOCATION, Guess.mk 'd' Result.CORRECT_LOCATION,
         Guess.mk 'e' Result.CORRECT_LOCATION] :=
  C2_amended {['x', 'b', 'c', 'd', 'e']}
    [Guess.mk 'a' Result.NOTPRESENT, Guess.mk 'b' Result.CORRECT_LOCATION,
     Guess.mk 'c' Result.CORRECT_LOCATION, Guess.mk 'd' Result.CORRECT_LOCATION,
     Guess.mk 'e' Result.CORRECT_LOCATION] 'a' (by decide)

/-- `FrequencyAnalyzer._calculate_letter_frequencies` denominator: the
`total_letters` accumulator, incremented once per word per distinct letter
(`for letter in set(word)`). -/
def total_letters (ws : Finset Word) : Nat := ws.sum (fun w => w.dedup.length)

/-- `FrequencyAnalyzer._calculate_letter_frequencies`: how many words
contain the letter (counted once per word, via `set(word)`), divided by
`total_letters`. Letters in no word have no dictionary entry; the score
lookup's `.get(letter, 0)` default coincides with `0 / total = 0` here.
(On an empty analyzer set Python would raise `ZeroDivisionError`; in `ℚ`
division by zero yields 0; the claims only concern non-empty sets.) -/
def letter_frequencies (ws : Finset Word) (c : Char) : ℚ :=
  ((ws.filter (fun w => c ∈ w.dedup)).card : ℚ) / (total_letters ws : ℚ)

/-- `FrequencyAnalyzer._calculate_position_frequencies`: fraction of words
having letter `c` at position `pos` (`total_words` denominator). -/
def position_frequencies (ws : Finset Word) (c : Char) (pos : Nat) : ℚ :=
  ((ws.filter (fun w => w.get? pos = some c)).card : ℚ) / (ws.card : ℚ)

/-- The adjacent 2-character substrings `word[i:i+2]`, in order. -/
def wordPairs : Word → List (Char × Char)
  | a :: b :: rest => (a, b) :: wordPairs (b :: rest)
  | _ => []

/-- `FrequencyAnalyzer._calculate_pair_frequencies` denominator: the
`total_pairs` accumulator, one per adjacent position per word. -/
def total_pairs (ws : Finset Word) : Nat := ws.sum (fun w => (wordPairs w).length)

/-- `FrequencyAnalyzer._calculate_pair_frequencies`: occurrences of the pair
across all words (a pair repeated inside one word counts each time), divided
by `total_pairs`. -/
def pair_frequencies (ws : Finset Word) (p : Char × Char) : ℚ :=
  ((ws.sum (fun w => (wordPairs w).count p) : Nat) : ℚ) / (total_pairs ws : ℚ)

/-- The position-score loop of `calculate_word_score`:
`sum(position_frequencies.get((letter, pos), 0) for pos, letter in
enumerate(word))`. -/
def position_score_aux (ws : Finset Word) : Word → Nat → ℚ
  | [], _ => 0
  | c :: rest, pos =>
    position_frequencies ws c pos + position_score_aux ws rest (pos + 1)

/-- `FrequencyAnalyzer.calculate_word_score(word)` of `solve.py`: the
weighted sum of the four components (the source's local variables are
inlined; Python float literals `0.3` etc. are the exact rationals). -/
def calculate_word_score (ws : Finset Word) (word : Word) : ℚ :=
  ((word.map pyLower).dedup.map (fun c => letter_frequencies ws c)).sum * (3 / 10) +
    position_score_aux ws (word.map pyLower) 0 * (4 / 10) +
    ((wordPairs (word.map pyLower)).map (fun p => pair_frequencies ws p)).sum * (2 / 10) +
    ((word.map pyLower).dedup.length : ℚ) / 5 * (1 / 10)

/-- The scoring formula exactly as claim C3 (and spec §4.3) states it: all
three frequency tables are fractions **of the candidate set** ("fraction of
candidates containing that letter at least once", "fraction of candidates
having w's letter at that position", "fraction of candidates containing
that substring"). Stated for comparison with `calculate_word_score`. -/
def spec_word_score (ws : Finset Word) (word : Word) : ℚ :=
  ((word.map pyLower).dedup.map (fun c =>
      ((ws.filter (fun u => c ∈ u)).card : ℚ) / (ws.card : ℚ))).sum * (3 / 10) +
    position_score_aux ws (word.map pyLower) 0 * (4 / 10) +
    ((wordPairs (word.map pyLower)).map (fun p =>
      ((ws.filter (fun u => p ∈ wordPairs u)).card : ℚ) / (ws.card : ℚ))).sum * (2 / 10) +
    ((word.map pyLower).dedup.length : ℚ) / 5 * (1 / 10)

/-- Claim C3's formula with the denominators the code actually uses: the
letter fractions divide by the total count of distinct-letter incidences
(the sum over candidates of their number of distinct letters), and the pair
fractions are occurrence counts divided by the total number of adjacent
pairs; only the position fractions and the unique-letter bonus are fractions
of the candidate-set size as originally claimed. -/
def amended_word_score (ws : Finset Word) (word : Word) : ℚ :=
  ((word.map pyLower).dedup.map (fun c =>
      ((ws.filter (fun u => c ∈ u)).card : ℚ) /
        ((ws.sum (fun u => u.dedup.length) : Nat) : ℚ))).sum * (3 / 10) +
    ((List.range (word.map pyLower).length).map (fun p =>
      position_frequencies ws ((word.map pyLower).getD p ' ') p)).sum * (4 / 10) +
    ((wordPairs (word.map pyLower)).map (fun p =>
      ((ws.sum (fun u => (wordPairs u).count p) : Nat) : ℚ) /
        ((ws.sum (fun u => (wordPairs u).length) : Nat) : ℚ))).sum * (2 / 10) +
    ((word.map pyLower).dedup.length : ℚ) / 5 * (1 / 10)

theorem letter_frequencies_eq (ws : Finset Word) (c : Char) :
    letter_frequencies ws c =
      ((ws.filter (fun u => c ∈ u)).card : ℚ) /
        ((ws.sum (fun u => u.dedup.length) : Nat) : ℚ) := by
  unfold letter_frequencies total_letters
  rw [show ws.filter (fun w => c ∈ w.dedup) = ws.filter (fun u => c ∈ u) from
    Finset.filter_congr (fun u _ => by rw [List.mem_dedup])]

theorem position_score_aux_eq_range (ws : Finset Word) :
    ∀ (w : Word) (i : Nat),
      position_score_aux ws w i =
        ((List.range w.length).map
          (fun p => position_frequencies ws (w.getD p ' ') (i + p))).sum := by
  intro w
  induction w with
  | nil => intro i; simp [position_score_aux]
  | cons c rest ih =>
    intro i
    rw [show position_score_aux ws (c :: rest) i =
        position_frequencies ws c i + position_score_aux ws rest (i + 1) from rfl]
    rw [List.length_cons, List.range_succ_eq_map, List.map_cons, List.sum_cons,
      ih (i + 1), List.map_map, List.getD_cons_zero, Nat.add_zero]
    congr 2
    apply List.map_congr_left
    intro p _
    simp only [Function.comp_apply, Nat.succ_eq_add_one, List.getD_cons_succ]
    congr 1
    omega

/-- C3: the claim's formula is false on the code. On the singleton candidate
set {"abcde"} and the word "abcde" the code's score is 13/5 while the
claimed formula (all three tables as fractions of the candidate set) gives
22/5: the code divides letter frequencies by the total count of
distinct-letter incidences and pair frequencies by the total pair count, not
by the number of candidates. -/
theorem C3_counterexample :
    calculate_word_score {['a', 'b', 'c', 'd', 'e']} ['a', 'b', 'c', 'd', 'e'] ≠
      spec_word_score {['a', 'b', 'c', 'd', 'e']} ['a', 'b', 'c', 'd', 'e'] := by
  have hmap : List.map pyLower ['a', 'b', 'c', 'd', 'e'] = ['a', 'b', 'c', 'd', 'e'] := by
    decide
  have hded : (['a', 'b', 'c', 'd', 'e'] : Word).dedup = ['a', 'b', 'c', 'd', 'e'] := by
    decide
  have hcode : calculate_word_score {['a', 'b', 'c', 'd', 'e']} ['a', 'b', 'c', 'd', 'e'] = 13 / 5 := by
    unfold calculate_word_score
    rw [hmap, hded]
    simp only [List.map_cons, List.map_nil, List.sum_cons, List.sum_nil,
      wordPairs, position_score_aux, List.length_cons, List.length_nil,
      letter_frequencies, position_frequencies, pair_frequencies,
      total_letters, total_pairs]
    rw [show (Finset.filter (fun w => 'a' ∈ w.dedup) ({['a', 'b', 'c', 'd', 'e']} : Finset Word)).card = 1 from by decide,
      show (Finset.filter (fun w => 'b' ∈ w.dedup) ({['a', 'b', 'c', 'd', 'e']} : Finset Word)).card = 1 from by decide,
      show (Finset.filter (fun w => 'c' ∈ w.dedup) ({['a', 'b', 'c', 'd', 'e']} : Finset Word)).card = 1 from by decide,
      show (Finset.filter (fun w => 'd' ∈ w.dedup) ({['a', 'b', 'c', 'd', 'e']} : Finset Word)).card = 1 from by decide,
      show (Finset.filter (fun w => 'e' ∈ w.dedup) ({['a', 'b', 'c', 'd', 'e']} : Finset Word)).card = 1 from by decide,
      show (({['a', 'b', 'c', 'd', 'e']} : Finset Word).sum (fun w => w.dedup.length)) = 5 from by decide,
      show (Finset.filter (fun w => w.get? 0 = some 'a') ({['a', 'b', 'c', 'd', 'e']} : Finset Word)).card = 1 from by decide,
      show (Finset.filter (fun w => w.get? 1 = some 'b') ({['a', 'b', 'c', 'd', 'e']} : Finset Word)).card = 1 from by decide,
      show (Finset.filter (fun w => w.get? 2 = some 'c') ({['a', 'b', 'c', 'd', 'e']} : Finset Word)).card = 1 from by decide,
      show (Finset.filter (fun w => w.get? 3 = some 'd') ({['a', 'b', 'c', 'd', 'e']} : Finset Word)).card = 1 from by decide,
      show (Finset.filter (fun w => w.get? 4 = some 'e') ({['a', 'b', 'c', 'd', 'e']} : Finset Word)).card = 1 from by decide,
      show ({['a', 'b', 'c', 'd', 'e']} : Finset Word).card = 1 from by decide,
      show (({['a', 'b', 'c', 'd', 'e']} : Finset Word).sum (fun w => (wordPairs w).count ('a', 'b'))) = 1 from by decide,
      show (({['a', 'b', 'c', 'd', 'e']} : Finset Word).sum (fun w => (wordPairs w).count ('b', 'c'))) = 1 from by decide,
      show (({['a', 'b', 'c', 'd', 'e']} : Finset Word).sum (fun w => (wordPairs w).count ('c', 'd'))) = 1 from by decide,
      show (({['a', 'b', 'c', 'd', 'e']} : Finset Word).sum (fun w => (wordPairs w).count ('d', 'e'))) = 1 from by decide,
      show (({['a', 'b', 'c', 'd', 'e']} : Finset Word).sum (fun w => (wordPairs w).length)) = 4 from by decide]
    norm_num
  have hspec : spec_word_score {['a', 'b', 'c', 'd', 'e']} ['a', 'b', 'c', 'd', 'e'] = 22 / 5 := by
    unfold spec_word_score
    rw [hmap, hded]
    simp only [List.map_cons, List.map_nil, List.sum_cons, List.sum_nil,
      wordPairs, position_score_aux, List.length_cons, List.length_nil,
      position_frequencies]
    rw [show (Finset.filter (fun u => 'a' ∈ u) ({['a', 'b', 'c', 'd', 'e']} : Finset Word)).card = 1 from by decide,
      show (Finset.filter (fun u => 'b' ∈ u) ({['a', 'b', 'c', 'd', 'e']} : Finset Word)).card = 1 from by decide,
      show (Finset.filter (fun u => 'c' ∈ u) ({['a', 'b', 'c', 'd', 'e']} : Finset Word)).card = 1 from by decide,
      show (Finset.filter (fun u => 'd' ∈ u) ({['a', 'b', 'c', 'd', 'e']} : Finset Word)).card = 1 from by decide,
      show (Finset.filter (fun u => 'e' ∈ u) ({['a', 'b', 'c', 'd', 'e']} : Finset Word)).card = 1 from by decide,
      show (Finset.filter (fun w => w.get? 0 = some 'a') ({['a', 'b', 'c', 'd', 'e']} : Finset Word)).card = 1 from by decide,
      show (Finset.filter (fun w => w.get? 1 = some 'b') ({['a', 'b', 'c', 'd', 'e']} : Finset Word)).card = 1 from by decide,
      show (Finset.filter (fun w => w.get? 2 = some 'c') ({['a', 'b', 'c', 'd', 'e']} : Finset Word)).card = 1 from by decide,
      show (Finset.filter (fun w => w.get? 3 = some 'd') ({['a', 'b', 'c', 'd', 'e']} : Finset Word)).card = 1 from by decide,
      show (Finset.filter (fun w => w.get? 4 = some 'e') ({['a', 'b', 'c', 'd', 'e']} : Finset Word)).card = 1 from by decide,
      show ({['a', 'b', 'c', 'd', 'e']} : Finset Word).card = 1 from by decide,
      show (Finset.filter (fun u => ('a', 'b') ∈ wordPairs u) ({['a', 'b', 'c', 'd', 'e']} : Finset Word)).card = 1 from by decide,
      show (Finset.filter (fun u => ('b', 'c') ∈ wordPairs u) ({['a', 'b', 'c', 'd', 'e']} : Finset Word)).card = 1 from by decide,
      show (Finset.filter (fun u => ('c', 'd') ∈ wordPairs u) ({['a', 'b', 'c', 'd', 'e']} : Finset Word)).card = 1 from by decide,
      show (Finset.filter (fun u => ('d', 'e') ∈ wordPairs u) ({['a', 'b', 'c', 'd', 'e']} : Finset Word)).card = 1 from by decide]
    norm_num
  rw [hcode, hspec]
  norm_num

/-- C3 (amended): for every non-empty candidate set and every 5-letter
lowercase word, the code's score equals the claimed formula with the
denominators corrected: letter fractions divide by the total number of
distinct-letter incidences across candidates, pair fractions are occurrence
counts over the total adjacent-pair count, while position fractions and the
unique-letter bonus are as originally claimed. -/
theorem C3_amended (ws : Finset Word) (w : Word)
    (hne : ws.Nonempty) (hlen : w.length = 5)
    (hlc : ∀ c ∈ w, 'a' ≤ c ∧ c ≤ 'z') :
    calculate_word_score ws w = amended_word_score ws w := by
  unfold calculate_word_score amended_word_score
  rw [position_score_aux_eq_range]
  simp only [Nat.zero_add]
  rw [show (fun c => letter_frequencies ws c) =
      (fun c => ((ws.filter (fun u => c ∈ u)).card : ℚ) /
        ((ws.sum (fun u => u.dedup.length) : Nat) : ℚ)) from
    funext (fun c => letter_frequencies_eq ws c)]
  rw [show (fun p => pair_frequencies ws p) =
      (fun p => ((ws.sum (fun u => (wordPairs u).count p) : Nat) : ℚ) /
        ((ws.sum (fun u => (wordPairs u).length) : Nat) : ℚ)) from
    funext (fun p => by unfold pair_frequencies total_pairs; rfl)]

/-- Witness for C3 (amended) at the singleton set {"abcde"} and word
"abcde". -/
theorem C3_amended_witness :
    calculate_word_score {['a', 'b', 'c', 'd', 'e']} ['a', 'b', 'c', 'd', 'e'] =
      amended_word_score {['a', 'b', 'c', 'd', 'e']} ['a', 'b', 'c', 'd', 'e'] :=
  C3_amended {['a', 'b', 'c', 'd', 'e']} ['a', 'b', 'c', 'd', 'e']
    ⟨['a', 'b', 'c', 'd', 'e'], by decide⟩ (by decide) (by decide)

/-- Stable descending insertion: `x` goes after every element of strictly
greater score and before the first element of smaller-or-equal score. -/
def insertDesc (x : Word × ℚ) : List (Word × ℚ) → List (Word × ℚ)
  | [] => [x]
  | y :: rest => if y.2 > x.2 then y :: insertDesc x rest else x :: y :: rest

/-- Stable descending sort by score. Python's `list.sort(key=lambda x: x[1],
reverse=True)` is Timsort, which is stable; a stable sort's output — the
unique permutation that is non-increasing in score and preserves the input
order of equal-score elements — is exactly what this insertion sort
produces, so the two are extensionally equal. -/
def sortDesc : List (Word × ℚ) → List (Word × ℚ)
  | [] => []
  | x :: rest => insertDesc x (sortDesc rest)

/-- `get_best_recommendations(possible_words, count)` of `solve.py`. The
argument is the iteration sequence of the Python set `possible_words` (its
elements, in iteration order): building `scored_words` iterates the set in
that order, while the `FrequencyAnalyzer` tables depend only on the
underlying set (modelled by `toFinset`). -/
def get_best_recommendations (possible_words : List Word) (count : Nat) : List Word :=
  if possible_words = [] then []
  else
    ((sortDesc (possible_words.map
        (fun w => (w, calculate_word_score possible_words.toFinset w)))).take count).map
      Prod.fst

theorem insertDesc_cons (x y : Word × ℚ) (rest : List (Word × ℚ)) :
    insertDesc x (y :: rest) =
      if y.2 > x.2 then y :: insertDesc x rest else x :: y :: rest := rfl

theorem mem_insertDesc (x a : Word × ℚ) :
    ∀ l : List (Word × ℚ), a ∈ insertDesc x l ↔ a = x ∨ a ∈ l := by
  intro l
  induction l with
  | nil => simp [insertDesc]
  | cons y rest ih =>
    rw [insertDesc_cons]
    by_cases hy : y.2 > x.2
    · rw [if_pos hy]
      simp only [List.mem_cons, ih]
      tauto
    · rw [if_neg hy]
      simp only [List.mem_cons]

theorem mem_sortDesc (a : Word × ℚ) :
    ∀ l : List (Word × ℚ), a ∈ sortDesc l ↔ a ∈ l := by
  intro l
  induction l with
  | nil => simp [sortDesc]
  | cons x rest ih =>
    show a ∈ insertDesc x (sortDesc rest) ↔ _
    rw [mem_insertDesc, ih, List.mem_cons]

theorem pairwise_insertDesc (x : Word × ℚ) :
    ∀ l : List (Word × ℚ),
      l.Pairwise (fun a b => b.2 ≤ a.2) →
      (insertDesc x l).Pairwise (fun a b => b.2 ≤ a.2) := by
  intro l
  induction l with
  | nil => intro _; simp [insertDesc]
  | cons y rest ih =>
    intro hp
    rw [List.pairwise_cons] at hp
    rw [insertDesc_cons]
    by_cases hy : y.2 > x.2
    · rw [if_pos hy]
      rw [List.pairwise_cons]
      constructor
      · intro z hz
        rcases (mem_insertDesc x z rest).mp hz with hzx | hzr
        · rw [hzx]
          exact le_of_lt hy
        · exact hp.1 z hzr
      · exact ih hp.2
    · rw [if_neg hy]
      rw [List.pairwise_cons]
      constructor
      · intro z hz
        rcases List.mem_cons.mp hz with hzy | hzr
        · rw [hzy]
          exact le_of_not_lt hy
        · exact le_trans (hp.1 z hzr) (le_of_not_lt hy)
      · exact List.pairwise_cons.mpr hp

theorem pairwise_sortDesc :
    ∀ l : List (Word × ℚ), (sortDesc l).Pairwise (fun a b => b.2 ≤ a.2) := by
  intro l
  induction l with
  | nil => simp [sortDesc]
  | cons x rest ih => exact pairwise_insertDesc x (sortDesc rest) ih

theorem insertDesc_filter_eq (q : ℚ) (x : Word × ℚ) (hx : x.2 = q) :
    ∀ l : List (Word × ℚ),
      (insertDesc x l).filter (fun y => decide (y.2 = q)) =
        x :: l.filter (fun y => decide (y.2 = q)) := by
  intro l
  induction l with
  | nil => simp [insertDesc, hx]
  | cons y rest ih =>
    rw [insertDesc_cons]
    by_cases hy : y.2 > x.2
    · rw [if_pos hy]
      have hyq : ¬ y.2 = q := by
        rw [← hx]
        intro h
        rw [h] at hy
        exact lt_irrefl _ hy
      rw [List.filter_cons_of_neg (by simpa using hyq), ih,
        List.filter_cons_of_neg (by simpa using hyq)]
    · rw [if_neg hy, List.filter_cons_of_pos (by simpa using hx)]

theorem insertDesc_filter_ne (q : ℚ) (x : Word × ℚ) (hx : ¬ x.2 = q) :
    ∀ l : List (Word × ℚ),
      (insertDesc x l).filter (fun y => decide (y.2 = q)) =
        l.filter (fun y => decide (y.2 = q)) := by
  intro l
  induction l with
  | nil => simp [insertDesc, hx]
  | cons y rest ih =>
    rw [insertDesc_cons]
    by_cases hy : y.2 > x.2
    · rw [if_pos hy]
      by_cases hyq : y.2 = q
      · rw [List.filter_cons_of_pos (by simpa using hyq), ih,
          List.filter_cons_of_pos (by simpa using hyq)]
      · rw [List.filter_cons_of_neg (by simpa using hyq), ih,
          List.filter_cons_of_neg (by simpa using hyq)]
    · rw [if_neg hy, List.filter_cons_of_neg (by simpa using hx)]

theorem sortDesc_filter (q : ℚ) :
    ∀ l : List (Word × ℚ),
      (sortDesc l).filter (fun y => decide (y.2 = q)) =
        l.filter (fun y => decide (y.2 = q)) := by
  intro l
  induction l with
  | nil => rfl
  | cons x rest ih =>
    show (insertDesc x (sortDesc rest)).filter _ = _
    by_cases hx : x.2 = q
    · rw [insertDesc_filter_eq q x hx, ih,
        List.filter_cons_of_pos (by simpa using hx)]
    · rw [insertDesc_filter_ne q x hx, ih,
        List.filter_cons_of_neg (by simpa using hx)]

theorem length_insertDesc (x : Word × ℚ) :
    ∀ l : List (Word × ℚ), (insertDesc x l).length = l.length + 1 := by
  intro l
  induction l with
  | nil => rfl
  | cons y rest ih =>
    rw [insertDesc_cons]
    by_cases hy : y.2 > x.2
    · rw [if_pos hy, List.length_cons, ih, List.length_cons]
    · rw [if_neg hy, List.length_cons, List.length_cons]

theorem length_sortDesc :
    ∀ l : List (Word × ℚ), (sortDesc l).length = l.length := by
  intro l
  induction l with
  | nil => rfl
  | cons x rest ih =>
    show (insertDesc x (sortDesc rest)).length = _
    rw [length_insertDesc, ih, List.length_cons]

/-- C4: the claim is false on the code. The words "aaaaa" and "bbbbb"
receive identical scores on the two-word candidate set, yet the ranked
output lists them in the set's iteration order, because `scored_words.sort`
is a stable sort keyed on the score only: for iteration order
["bbbbb", "aaaaa"] the output is ["bbbbb", "aaaaa"], which is not
lexicographic ("aaaaa" < "bbbbb"), and the two iteration orders of the same
set give different outputs, so the ranking is not a function of the set. -/
theorem C4_counterexample :
    ([['a', 'a', 'a', 'a', 'a'], ['b', 'b', 'b', 'b', 'b']] : List Word).toFinset = ([['b', 'b', 'b', 'b', 'b'], ['a', 'a', 'a', 'a', 'a']] : List Word).toFinset ∧
    calculate_word_score (([['a', 'a', 'a', 'a', 'a'], ['b', 'b', 'b', 'b', 'b']] : List Word).toFinset) ['a', 'a', 'a', 'a', 'a'] =
      calculate_word_score (([['a', 'a', 'a', 'a', 'a'], ['b', 'b', 'b', 'b', 'b']] : List Word).toFinset) ['b', 'b', 'b', 'b', 'b'] ∧
    (['a', 'a', 'a', 'a', 'a'] : Word) < ['b', 'b', 'b', 'b', 'b'] ∧
    get_best_recommendations [['a', 'a', 'a', 'a', 'a'], ['b', 'b', 'b', 'b', 'b']] 10 = [['a', 'a', 'a', 'a', 'a'], ['b', 'b', 'b', 'b', 'b']] ∧
    get_best_recommendations [['b', 'b', 'b', 'b', 'b'], ['a', 'a', 'a', 'a', 'a']] 10 = [['b', 'b', 'b', 'b', 'b'], ['a', 'a', 'a', 'a', 'a']] ∧
    get_best_recommendations [['a', 'a', 'a', 'a', 'a'], ['b', 'b', 'b', 'b', 'b']] 10 ≠ get_best_recommendations [['b', 'b', 'b', 'b', 'b'], ['a', 'a', 'a', 'a', 'a']] 10 := by
  have h11 : calculate_word_score (([['a', 'a', 'a', 'a', 'a'], ['b', 'b', 'b', 'b', 'b']] : List Word).toFinset) ['a', 'a', 'a', 'a', 'a'] = 157 / 100 := by
    unfold calculate_word_score
    rw [show List.map pyLower ['a', 'a', 'a', 'a', 'a'] = ['a', 'a', 'a', 'a', 'a'] from by decide,
      show (['a', 'a', 'a', 'a', 'a'] : Word).dedup = ['a'] from by decide]
    simp only [List.map_cons, List.map_nil, List.sum_cons, List.sum_nil,
      wordPairs, position_score_aux, List.length_cons, List.length_nil,
      letter_frequencies, position_frequencies, pair_frequencies,
      total_letters, total_pairs]
    rw [show (Finset.filter (fun w => 'a' ∈ w.dedup) (([['a', 'a', 'a', 'a', 'a'], ['b', 'b', 'b', 'b', 'b']] : List Word).toFinset)).card = 1 from by decide,
      show ((([['a', 'a', 'a', 'a', 'a'], ['b', 'b', 'b', 'b', 'b']] : List Word).toFinset).sum (fun w => w.dedup.length)) = 2 from by decide,
      show (Finset.filter (fun w => w.get? 0 = some 'a') (([['a', 'a', 'a', 'a', 'a'], ['b', 'b', 'b', 'b', 'b']] : List Word).toFinset)).card = 1 from by decide,
      show (Finset.filter (fun w => w.get? 1 = some 'a') (([['a', 'a', 'a', 'a', 'a'], ['b', 'b', 'b', 'b', 'b']] : List Word).toFinset)).card = 1 from by decide,
      show (Finset.filter (fun w => w.get? 2 = some 'a') (([['a', 'a', 'a', 'a', 'a'], ['b', 'b', 'b', 'b', 'b']] : List Word).toFinset)).card = 1 from by decide,
      show (Finset.filter (fun w => w.get? 3 = some 'a') (([['a', 'a', 'a', 'a', 'a'], ['b', 'b', 'b', 'b', 'b']] : List Word).toFinset)).card = 1 from by decide,
      show (Finset.filter (fun w => w.get? 4 = some 'a') (([['a', 'a', 'a', 'a', 'a'], ['b', 'b', 'b', 'b', 'b']] : List Word).toFinset)).card = 1 from by decide,
      show (([['a', 'a', 'a', 'a', 'a'], ['b', 'b', 'b', 'b', 'b']] : List Word).toFinset).card = 2 from by decide,
      show ((([['a', 'a', 'a', 'a', 'a'], ['b', 'b', 'b', 'b', 'b']] : List Word).toFinset).sum (fun w => (wordPairs w).count ('a', 'a'))) = 4 from by decide,
      show ((([['a', 'a', 'a', 'a', 'a'], ['b', 'b', 'b', 'b', 'b']] : List Word).toFinset).sum (fun w => (wordPairs w).length)) = 8 from by decide]
    norm_num
  have h12 : calculate_word_score (([['a', 'a', 'a', 'a', 'a'], ['b', 'b', 'b', 'b', 'b']] : List Word).toFinset) ['b', 'b', 'b', 'b', 'b'] = 157 / 100 := by
    unfold calculate_word_score
    rw [show List.map pyLower ['b', 'b', 'b', 'b', 'b'] = ['b', 'b', 'b', 'b', 'b'] from by decide,
      show (['b', 'b', 'b', 'b', 'b'] : Word).dedup = ['b'] from by decide]
    simp only [List.map_cons, List.map_nil, List.sum_cons, List.sum_nil,
      wordPairs, position_score_aux, List.length_cons, List.length_nil,
      letter_frequencies, position_frequencies, pair_frequencies,
      total_letters, total_pairs]
    rw [show (Finset.filter (fun w => 'b' ∈ w.dedup) (([['a', 'a', 'a', 'a', 'a'], ['b', 'b', 'b', 'b', 'b']] : List Word).toFinset)).card = 1 from by decide,
      show ((([['a', 'a', 'a', 'a', 'a'], ['b', 'b', 'b', 'b', 'b']] : List Word).toFinset).sum (fun w => w.dedup.length)) = 2 from by decide,
      show (Finset.filter (fun w => w.get? 0 = some 'b') (([['a', 'a', 'a', 'a', 'a'], ['b', 'b', 'b', 'b', 'b']] : List Word).toFinset)).card = 1 from by decide,
      show (Finset.filter (fun w => w.get? 1 = some 'b') (([['a', 'a', 'a', 'a', 'a'], ['b', 'b', 'b', 'b', 'b']] : List Word).toFinset)).card = 1 from by decide,
      show (Finset.filter (fun w => w.get? 2 = some 'b') (([['a', 'a', 'a', 'a', 'a'], ['b', 'b', 'b', 'b', 'b']] : List Word).toFinset)).card = 1 from by decide,
      show (Finset.filter (fun w => w.get? 3 = some 'b') (([['a', 'a', 'a', 'a', 'a'], ['b', 'b', 'b', 'b', 'b']] : List Word).toFinset)).card = 1 from by decide,
      show (Finset.filter (fun w => w.get? 4 = some 'b') (([['a', 'a', 'a', 'a', 'a'], ['b', 'b', 'b', 'b', 'b']] : List Word).toFinset)).card = 1 from by decide,
      show (([['a', 'a', 'a', 'a', 'a'], ['b', 'b', 'b', 'b', 'b']] : List Word).toFinset).card = 2 from by decide,
      show ((([['a', 'a', 'a', 'a', 'a'], ['b', 'b', 'b', 'b', 'b']] : List Word).toFinset).sum (fun w => (wordPairs w).count ('b', 'b'))) = 4 from by decide,
      show ((([['a', 'a', 'a', 'a', 'a'], ['b', 'b', 'b', 'b', 'b']] : List Word).toFinset).sum (fun w => (wordPairs w).length)) = 8 from by decide]
    norm_num
  have h21 : calculate_word_score (([['b', 'b', 'b', 'b', 'b'], ['a', 'a', 'a', 'a', 'a']] : List Word).toFinset) ['b', 'b', 'b', 'b', 'b'] = 157 / 100 := by
    unfold calculate_word_score
    rw [show List.map pyLower ['b', 'b', 'b', 'b', 'b'] = ['b', 'b', 'b', 'b', 'b'] from by decide,
      show (['b', 'b', 'b', 'b', 'b'] : Word).dedup = ['b'] from by decide]
    simp only [List.map_cons, List.map_nil, List.sum_cons, List.sum_nil,
      wordPairs, position_score_aux, List.length_cons, List.length_nil,
      letter_frequencies, position_frequencies, pair_frequencies,
      total_letters, total_pairs]
    rw [show (Finset.filter (fun w => 'b' ∈ w.dedup) (([['b', 'b', 'b', 'b', 'b'], ['a', 'a', 'a', 'a', 'a']] : List Word).toFinset)).card = 1 from by decide,
      show ((([['b', 'b', 'b', 'b', 'b'], ['a', 'a', 'a', 'a', 'a']] : List Word).toFinset).sum (fun w => w.dedup.length)) = 2 from by decide,
      show (Finset.filter (fun w => w.get? 0 = some 'b') (([['b', 'b', 'b', 'b', 'b'], ['a', 'a', 'a', 'a', 'a']] : List Word).toFinset)).card = 1 from by decide,
      show (Finset.filter (fun w => w.get? 1 = some 'b') (([['b', 'b', 'b', 'b', 'b'], ['a', 'a', 'a', 'a', 'a']] : List Word).toFinset)).card = 1 from by decide,
      show (Finset.filter (fun w => w.get? 2 = some 'b') (([['b', 'b', 'b', 'b', 'b'], ['a', 'a', 'a', 'a', 'a']] : List Word).toFinset)).card = 1 from by decide,
      show (Finset.filter (fun w => w.get? 3 = some 'b') (([['b', 'b', 'b', 'b', 'b'], ['a', 'a', 'a', 'a', 'a']] : List Word).toFinset)).card = 1 from by decide,
      show (Finset.filter (fun w => w.get? 4 = some 'b') (([['b', 'b', 'b', 'b', 'b'], ['a', 'a', 'a', 'a', 'a']] : List Word).toFinset)).card = 1 from by decide,
      show (([['b', 'b', 'b', 'b', 'b'], ['a', 'a', 'a', 'a', 'a']] : List Word).toFinset).card = 2 from by decide,
      show ((([['b', 'b', 'b', 'b', 'b'], ['a', 'a', 'a', 'a', 'a']] : List Word).toFinset).sum (fun w => (wordPairs w).count ('b', 'b'))) = 4 from by decide,
      show ((([['b', 'b', 'b', 'b', 'b'], ['a', 'a', 'a', 'a', 'a']] : List Word).toFinset).sum (fun w => (wordPairs w).length)) = 8 from by decide]
    norm_num
  have h22 : calculate_word_score (([['b', 'b', 'b', 'b', 'b'], ['a', 'a', 'a', 'a', 'a']] : List Word).toFinset) ['a', 'a', 'a', 'a', 'a'] = 157 / 100 := by
    unfold calculate_word_score
    rw [show List.map pyLower ['a', 'a', 'a', 'a', 'a'] = ['a', 'a', 'a', 'a', 'a'] from by decide,
      show (['a', 'a', 'a', 'a', 'a'] : Word).dedup = ['a'] from by decide]
    simp only [List.map_cons, List.map_nil, List.sum_cons, List.sum_nil,
      wordPairs, position_score_aux, List.length_cons, List.length_nil,
      letter_frequencies, position_frequencies, pair_frequencies,
      total_letters, total_pairs]
    rw [show (Finset.filter (fun w => 'a' ∈ w.dedup) (([['b', 'b', 'b', 'b', 'b'], ['a', 'a', 'a', 'a', 'a']] : List Word).toFinset)).card = 1 from by decide,
      show ((([['b', 'b', 'b', 'b', 'b'], ['a', 'a', 'a', 'a', 'a']] : List Word).toFinset).sum (fun w => w.dedup.length)) = 2 from by decide,
      show (Finset.filter (fun w => w.get? 0 = some 'a') (([['b', 'b', 'b', 'b', 'b'], ['a', 'a', 'a', 'a', 'a']] : List Word).toFinset)).card = 1 from by decide,
      show (Finset.filter (fun w => w.get? 1 = some 'a') (([['b', 'b', 'b', 'b', 'b'], ['a', 'a', 'a', 'a', 'a']] : List Word).toFinset)).card = 1 from by decide,
      show (Finset.filter (fun w => w.get? 2 = some 'a') (([['b', 'b', 'b', 'b', 'b'], ['a', 'a', 'a', 'a', 'a']] : List Word).toFinset)).card = 1 from by decide,
      show (Finset.filter (fun w => w.get? 3 = some 'a') (([['b', 'b', 'b', 'b', 'b'], ['a', 'a', 'a', 'a', 'a']] : List Word).toFinset)).card = 1 from by decide,
      show (Finset.filter (fun w => w.get? 4 = some 'a') (([['b', 'b', 'b', 'b', 'b'], ['a', 'a', 'a', 'a', 'a']] : List Word).toFinset)).card = 1 from by decide,
      show (([['b', 'b', 'b', 'b', 'b'], ['a', 'a', 'a', 'a', 'a']] : List Word).toFinset).card = 2 from by decide,
      show ((([['b', 'b', 'b', 'b', 'b'], ['a', 'a', 'a', 'a', 'a']] : List Word).toFinset).sum (fun w => (wordPairs w).count ('a', 'a'))) = 4 from by decide,
      show ((([['b', 'b', 'b', 'b', 'b'], ['a', 'a', 'a', 'a', 'a']] : List Word).toFinset).sum (fun w => (wordPairs w).length)) = 8 from by decide]
    norm_num
  have hbestA : get_best_recommendations [['a', 'a', 'a', 'a', 'a'], ['b', 'b', 'b', 'b', 'b']] 10 = [['a', 'a', 'a', 'a', 'a'], ['b', 'b', 'b', 'b', 'b']] := by
    unfold get_best_recommendations
    rw [if_neg (by decide)]
    simp only [List.map_cons, List.map_nil]
    rw [h11, h12]
    simp only [sortDesc, insertDesc]
    rw [if_neg (lt_irrefl ((157 : ℚ) / 100))]
    simp [List.take]
  have hbestB : get_best_recommendations [['b', 'b', 'b', 'b', 'b'], ['a', 'a', 'a', 'a', 'a']] 10 = [['b', 'b', 'b', 'b', 'b'], ['a', 'a', 'a', 'a', 'a']] := by
    unfold get_best_recommendations
    rw [if_neg (by decide)]
    simp only [List.map_cons, List.map_nil]
    rw [h21, h22]
    simp only [sortDesc, insertDesc]
    rw [if_neg (lt_irrefl ((157 : ℚ) / 100))]
    simp [List.take]
  refine ⟨by decide, h11.trans h12.symm, by decide, hbestA, hbestB, ?_⟩
  rw [hbestA, hbestB]
  decide

/-- C4 (amended): for a fixed iteration order of the candidate set the
ranking is a pure function of that order: its output is sorted by
non-increasing score, and words with identical scores appear in the
iteration order of the input (the sort is stable) — not in lexicographic
order. Stability is stated as: restricting the full ranked output to the
words of any one score value yields exactly the input's subsequence of
words with that score value. -/
theorem C4_amended (l : List Word) (n : Nat) :
    (get_best_recommendations l n).Pairwise
      (fun a b => calculate_word_score l.toFinset b ≤
        calculate_word_score l.toFinset a) ∧
    ∀ q : ℚ,
      (get_best_recommendations l l.length).filter
          (fun w => decide (calculate_word_score l.toFinset w = q)) =
        l.filter (fun w => decide (calculate_word_score l.toFinset w = q)) := by
  by_cases hl : l = []
  · subst hl
    exact ⟨by simp [get_best_recommendations], fun q => by simp [get_best_recommendations]⟩
  · have hmemS : ∀ y ∈ sortDesc (l.map
        (fun w => (w, calculate_word_score l.toFinset w))),
        y.2 = calculate_word_score l.toFinset y.1 := by
      intro y hy
      have hy2 := (mem_sortDesc y _).mp hy
      obtain ⟨w, _, hw2⟩ := List.mem_map.mp hy2
      rw [← hw2]
    constructor
    · unfold get_best_recommendations
      rw [if_neg hl, List.pairwise_map]
      have hpw : (sortDesc (l.map
          (fun w => (w, calculate_word_score l.toFinset w)))).Pairwise
          (fun a b => b.2 ≤ a.2) := pairwise_sortDesc _
      have hpw2 := hpw.imp_of_mem
        (fun ha hb hr => by rw [hmemS _ ha, hmemS _ hb] at hr; exact hr)
      exact hpw2.sublist (List.take_sublist n _)
    · intro q
      unfold get_best_recommendations
      rw [if_neg hl]
      rw [List.take_of_length_le (le_of_eq (by rw [length_sortDesc, List.length_map]))]
      rw [List.filter_map]
      have hc1 : (sortDesc (l.map
          (fun w => (w, calculate_word_score l.toFinset w)))).filter
            ((fun w => decide (calculate_word_score l.toFinset w = q)) ∘ Prod.fst) =
          (sortDesc (l.map
            (fun w => (w, calculate_word_score l.toFinset w)))).filter
            (fun y => decide (y.2 = q)) := by
        apply List.filter_congr
        intro y hy
        simp only [Function.comp_apply]
        rw [hmemS y hy]
      rw [hc1, sortDesc_filter q]
      have hc2 : (l.map
          (fun w => (w, calculate_word_score l.toFinset w))).filter
            (fun y => decide (y.2 = q)) =
          (l.map (fun w => (w, calculate_word_score l.toFinset w))).filter
            ((fun w => decide (calculate_word_score l.toFinset w = q)) ∘ Prod.fst) := by
        apply List.filter_congr
        intro y hy
        obtain ⟨w, _, hw2⟩ := List.mem_map.mp hy
        rw [← hw2]
        rfl
      rw [hc2, List.filter_map, List.map_map]
      have hfin : ∀ m : List Word,
          m.map (Prod.fst ∘ (fun w => (w, calculate_word_score l.toFinset w))) = m := by
        intro m
        induction m with
        | nil => rfl
        | cons a rest ih =>
          rw [List.map_cons, ih]
          rfl
      rw [hfin]
      apply List.filter_congr
      intro w _
      rfl

/-- Python `str` whitespace, as used by `strip()` and `split()` (ASCII
subset; the model is ASCII-only). -/
def isSpacePy (c : Char) : Bool :=
  c = ' ' || c = '\t' || c = '\n' || c = '\r' || c = '\x0b' || c = '\x0c'

/-- `str.strip()`: drop leading and trailing whitespace. -/
def pyStrip (s : List Char) : List Char :=
  ((s.dropWhile (fun c => isSpacePy c)).reverse.dropWhile (fun c => isSpacePy c)).reverse

/-- Accumulator pass for `str.split()` with no argument: whitespace runs
separate tokens and produce no empty tokens. -/
def splitWsAux : List Char → List Char → List (List Char)
  | [], cur => if cur = [] then [] else [cur.reverse]
  | c :: rest, cur =>
    if isSpacePy c then
      if cur = [] then splitWsAux rest []
      else cur.reverse :: splitWsAux rest []
    else splitWsAux rest (c :: cur)

/-- `str.split()` with no argument. -/
def splitWs (s : List Char) : List (List Char) := splitWsAux s []

/-- ASCII `str.isalpha()`. -/
def isalphaPy (c : Char) : Bool :=
  ('a' ≤ c && c ≤ 'z') || ('A' ≤ c && c ≤ 'Z')

/-- The symbol table `color_map` of `parse_input`: `'g'`, `'y'`, `'b'` map
to the three outcomes (only ever applied to characters of the allowed set,
which is checked first). -/
def color_map (c : Char) : Result :=
  if c = 'g' then Result.CORRECT_LOCATION
  else if c = 'y' then Result.INCORRECT_LOCATION
  else Result.NOTPRESENT

/-- `parse_input(input_str)` of `solve.py`; `none` models a raised
`ValueError`, so no partial result exists. The source's local variables
`parts`, `word`, `colors` are inlined. -/
def parse_input (input_str : List Char) : Option (List Guess) :=
  if pyStrip input_str = [] then none
  else if (splitWs (pyStrip input_str)).length ≠ 2 then none
  else if (((splitWs (pyStrip input_str)).getD 0 []).map pyLower).length ≠ 5 ∨
      (((splitWs (pyStrip input_str)).getD 1 []).map pyLower).length ≠ 5 then none
  else if ¬ ((((splitWs (pyStrip input_str)).getD 0 []).map pyLower).all
      (fun c => isalphaPy c) = true) then none
  else if ¬ ((((splitWs (pyStrip input_str)).getD 1 []).map pyLower).all
      (fun c => c == 'g' || c == 'y' || c == 'b') = true) then none
  else some (List.zipWith (fun l c => Guess.mk l (color_map c))
    (((splitWs (pyStrip input_str)).getD 0 []).map pyLower)
    (((splitWs (pyStrip input_str)).getD 1 []).map pyLower))

/-- Claim C7's well-formedness of feedback text: the input splits into
exactly one word and one code, the word part is exactly 5 alphabetic
characters, and the code part is exactly 5 characters drawn from the
allowed 3-symbol set `{g, y, b}` (up to the case normalisation the parser
applies). -/
def wellFormedInput (s : List Char) : Prop :=
  (splitWs (pyStrip s)).length = 2 ∧
  ((splitWs (pyStrip s)).getD 0 []).length = 5 ∧
  (∀ c ∈ (splitWs (pyStrip s)).getD 0 [], isalphaPy c = true) ∧
  ((splitWs (pyStrip s)).getD 1 []).length = 5 ∧
  (∀ c ∈ (splitWs (pyStrip s)).getD 1 [], pyLower c ∈ (['g', 'y', 'b'] : List Char))

/-- The (letter, outcome) sequence claim C7 promises on well-formed input:
the lowercased word letters zipped with the symbol table applied to the
lowercased code characters. -/
def expectedGuesses (s : List Char) : List Guess :=
  List.zipWith (fun l c => Guess.mk l (color_map c))
    (((splitWs (pyStrip s)).getD 0 []).map pyLower)
    (((splitWs (pyStrip s)).getD 1 []).map pyLower)

theorem isalphaPy_pyLower (c : Char) : isalphaPy (pyLower c) = isalphaPy c := by
  unfold pyLower
  by_cases h1 : c = 'A'
  · rw [if_pos h1, h1]
    decide
  · rw [if_neg h1]
    by_cases h2 : c = 'B'
    · rw [if_pos h2, h2]
      decide
    · rw [if_neg h2]
      by_cases h3 : c = 'C'
      · rw [if_pos h3, h3]
        decide
      · rw [if_neg h3]
        by_cases h4 : c = 'D'
        · rw [if_pos h4, h4]
          decide
        · rw [if_neg h4]
          by_cases h5 : c = 'E'
          · rw [if_pos h5, h5]
            decide
          · rw [if_neg h5]
            by_cases h6 : c = 'F'
            · rw [if_pos h6, h6]
              decide
            · rw [if_neg h6]
              by_cases h7 : c = 'G'
              · rw [if_pos h7, h7]
                decide
              · rw [if_neg h7]
                by_cases h8 : c = 'H'
                · rw [if_pos h8, h8]
                  decide
                · rw [if_neg h8]
                  by_cases h9 : c = 'I'
                  · rw [if_pos h9, h9]
                    decide
                  · rw [if_neg h9]
                    by_cases h10 : c = 'J'
                    · rw [if_pos h10, h10]
                      decide
                    · rw [if_neg h10]
                      by_cases h11 : c = 'K'
                      · rw [if_pos h11, h11]
                        decide
                      · rw [if_neg h11]
                        by_cases h12 : c = 'L'
                        · rw [if_pos h12, h12]
                          decide
                        · rw [if_neg h12]
                          by_cases h13 : c = 'M'
                          · rw [if_pos h13, h13]
                            decide
                          · rw [if_neg h13]
                            by_cases h14 : c = 'N'
                            · rw [if_pos h14, h14]
                              decide
                            · rw [if_neg h14]
                              by_cases h15 : c = 'O'
                              · rw [if_pos h15, h15]
                                decide
                              · rw [if_neg h15]
                                by_cases h16 : c = 'P'
                                · rw [if_pos h16, h16]
                                  decide
                                · rw [if_neg h16]
                                  by_cases h17 : c = 'Q'
                                  · rw [if_pos h17, h17]
                                    decide
                                  · rw [if_neg h17]
                                    by_cases h18 : c = 'R'
                                    · rw [if_pos h18, h18]
                                      decide
                                    · rw [if_neg h18]
                                      by_cases h19 : c = 'S'
                                      · rw [if_pos h19, h19]
                                        decide
                                      · rw [if_neg h19]
                                        by_cases h20 : c = 'T'
                                        · rw [if_pos h20, h20]
                                          decide
                                        · rw [if_neg h20]
                                          by_cases h21 : c = 'U'
                                          · rw [if_pos h21, h21]
                                            decide
                                          · rw [if_neg h21]
                                            by_cases h22 : c = 'V'
                                            · rw [if_pos h22, h22]
                                              decide
                                            · rw [if_neg h22]
                                              by_cases h23 : c = 'W'
                                              · rw [if_pos h23, h23]
                                                decide
                                              · rw [if_neg h23]
                                                by_cases h24 : c = 'X'
                                                · rw [if_pos h24, h24]
                                                  decide
                                                · rw [if_neg h24]
                                                  by_cases h25 : c = 'Y'
                                                  · rw [if_pos h25, h25]
                                                    decide
                                                  · rw [if_neg h25]
                                                    by_cases h26 : c = 'Z'
                                                    · rw [if_pos h26, h26]
                                                      decide
                                                    · rw [if_neg h26]

theorem wellFormed_iff_checks (s : List Char) :
    wellFormedInput s ↔
      (pyStrip s ≠ [] ∧
       (splitWs (pyStrip s)).length = 2 ∧
       ((((splitWs (pyStrip s)).getD 0 []).map pyLower).length = 5 ∧
        (((splitWs (pyStrip s)).getD 1 []).map pyLower).length = 5) ∧
       (((splitWs (pyStrip s)).getD 0 []).map pyLower).all
         (fun c => isalphaPy c) = true ∧
       (((splitWs (pyStrip s)).getD 1 []).map pyLower).all
         (fun c => c == 'g' || c == 'y' || c == 'b') = true) := by
  have halpha : (((splitWs (pyStrip s)).getD 0 []).map pyLower).all
      (fun c => isalphaPy c) =
      ((splitWs (pyStrip s)).getD 0 []).all (fun c => isalphaPy c) := by
    rw [List.all_map]
    congr 1
    funext c
    exact isalphaPy_pyLower c
  have hgyb : ∀ colors : List Char,
      ((colors.map pyLower).all (fun c => c == 'g' || c == 'y' || c == 'b') = true ↔
        ∀ c ∈ colors, pyLower c ∈ (['g', 'y', 'b'] : List Char)) := by
    intro colors
    rw [List.all_map, List.all_eq_true]
    constructor
    · intro h c hc
      have h2 := h c hc
      simp only [Function.comp_apply, Bool.or_eq_true, beq_iff_eq] at h2
      simp only [List.mem_cons, List.not_mem_nil, or_false]
      tauto
    · intro h c hc
      have h2 := h c hc
      simp only [List.mem_cons, List.not_mem_nil, or_false] at h2
      simp only [Function.comp_apply, Bool.or_eq_true, beq_iff_eq]
      tauto
  constructor
  · rintro ⟨h2, hw5, hwa, hc5, hcb⟩
    refine ⟨?_, h2, ⟨?_, ?_⟩, ?_, ?_⟩
    · intro hnil
      rw [hnil] at h2
      exact absurd h2 (by decide)
    · rw [List.length_map]; exact hw5
    · rw [List.length_map]; exact hc5
    · rw [halpha]
      exact List.all_eq_true.mpr hwa
    · exact (hgyb _).mpr hcb
  · rintro ⟨_, h2, ⟨hw5, hc5⟩, hwa, hcb⟩
    rw [List.length_map] at hw5 hc5
    rw [halpha] at hwa
    exact ⟨h2, hw5, List.all_eq_true.mp hwa, hc5, (hgyb _).mp hcb⟩

/-- C7: `parse_input` fails (raises `ValueError`, modelled as `none`, hence
no partial result) exactly when the input text is malformed — the input
does not split into exactly one word and one code, the word part is not
exactly 5 alphabetic characters, or the code part is not exactly 5
characters of the allowed 3-symbol set — and on well-formed input it
returns the length-5 sequence of (letter, outcome) pairs given by the
symbol table. -/
theorem C7_parse (s : List Char) :
    (wellFormedInput s → parse_input s = some (expectedGuesses s)) ∧
    (¬ wellFormedInput s → parse_input s = none) := by
  rw [wellFormed_iff_checks]
  unfold parse_input
  by_cases h1 : pyStrip s = []
  · rw [if_pos h1]
    exact ⟨fun hwf => absurd h1 hwf.1, fun _ => rfl⟩
  · rw [if_neg h1]
    by_cases h2 : (splitWs (pyStrip s)).length = 2
    · rw [if_neg (not_not_intro h2)]
      by_cases h3 : (((splitWs (pyStrip s)).getD 0 []).map pyLower).length = 5 ∧
          (((splitWs (pyStrip s)).getD 1 []).map pyLower).length = 5
      · rw [if_neg (not_or.mpr ⟨not_not_intro h3.1, not_not_intro h3.2⟩)]
        by_cases h4 : (((splitWs (pyStrip s)).getD 0 []).map pyLower).all
            (fun c => isalphaPy c) = true
        · rw [if_neg (not_not_intro h4)]
          by_cases h5 : (((splitWs (pyStrip s)).getD 1 []).map pyLower).all
              (fun c => c == 'g' || c == 'y' || c == 'b') = true
          · rw [if_neg (not_not_intro h5)]
            exact ⟨fun _ => rfl,
              fun hnwf => absurd ⟨h1, h2, h3, h4, h5⟩ hnwf⟩
          · rw [if_pos h5]
            exact ⟨fun hwf => absurd hwf.2.2.2.2 h5, fun _ => rfl⟩
        · rw [if_pos h4]
          exact ⟨fun hwf => absurd hwf.2.2.2.1 h4, fun _ => rfl⟩
      · rw [if_pos (by
          rcases not_and_or.mp h3 with h | h
          · exact Or.inl h
          · exact Or.inr h)]
        exact ⟨fun hwf => absurd hwf.2.2.1 h3, fun _ => rfl⟩
    · rw [if_pos h2]
      exact ⟨fun hwf => absurd hwf.2.1 h2, fun _ => rfl⟩

/-- Witness for C7 at the well-formed input "arose gybgy" and the malformed
input "arose gybgq" (code symbol `q` outside the allowed set). -/
theorem C7_parse_witness :
    parse_input
        ['a', 'r', 'o', 's', 'e', ' ', 'g', 'y', 'b', 'g', 'y'] =
      some (expectedGuesses
        ['a', 'r', 'o', 's', 'e', ' ', 'g', 'y', 'b', 'g', 'y']) ∧
    parse_input ['a', 'r', 'o', 's', 'e', ' ', 'g', 'y', 'b', 'g', 'q'] = none :=
  ⟨(C7_parse ['a', 'r', 'o', 's', 'e', ' ', 'g', 'y', 'b', 'g', 'y']).1
     (by unfold wellFormedInput; decide),
   (C7_parse ['a', 'r', 'o', 's', 'e', ' ', 'g', 'y', 'b', 'g', 'q']).2
     (by unfold wellFormedInput; decide)⟩
